import Mathlib

/-!
# Theme thumbnail generation (`src/service/modules/api/themethumb.cpp`)

A shallow embedding of the thumbnail pipeline: scale state, cache path
resolution, staleness check, version sweep, cursor candidate selection, the
cursor bitmap conversion and the two compositors.

Conventions of the embedding

* `double` values are IEEE 754 binary64 values (`Double`): NaN, the two
  infinities and the finite values `m * 2^e`.  Every arithmetic operation
  rounds its exact result to the nearest double, ties to even, one operation
  at a time (no fused multiply-add).  The two zeros are not distinguished;
  no operation used here tells them apart.
* `int` values are `Int`.  Signed overflow and the conversion to `int` of a
  `double` that is NaN, infinite or outside the `int` range are undefined
  behaviour in C++; theorems that depend on such a conversion assume it is
  defined (`Double.fitsInt`).
* `QString` is `String`.
* Calls that leave the translation unit (Qt, Xcursor, `DFile`, `utils`) are
  fields of `Env`; every such call made by an entry point is recorded, in
  program order, in the `List Effect` returned next to the result.
-/

namespace ThemeThumb

/-! ## Constants and tables -/

def width : Int := 220
def height : Int := 36
def baseCursorSize : Int := 24
def baseCursorPadding : Int := 7
def baseIconPadding : Int := 10
def baseIconSize : Int := 36

def presentCursors : List (List String) :=
  [ ["left_ptr"],
    ["left_ptr_watch"],
    ["x-cursor", "X_cursor"],
    ["hand2", "hand1"],
    ["grab", "grabbing", "closedhand"],
    ["fleur", "move"],
    ["sb_v_double_arrow"] ]

def presentIcons : List (List String) :=
  [ ["dde-file-manager", "system-file-manager"],
    ["deepin-music", "banshee", "amarok", "deadbeef", "clementine", "rhythmbox"],
    ["deepin-image-viewer", "eog", "gthumb", "gwenview", "gpicview", "showfoto", "phototonic"],
    ["org.deepin.browser", "google-chrome", "firefox", "chromium", "opera",
      "internet-web-browser", "browser"],
    ["user-trash"] ]

/-! ## Doubles -/

/-- An IEEE 754 binary64 value.  `finite m e` stands for `m * 2^e`; the values
the operations below produce have `|m| ≤ 2^53` and `-1074 ≤ e`. -/
inductive Double where
  | finite (m : Int) (e : Int)
  | inf (negative : Bool)
  | nan
  deriving DecidableEq, Repr

namespace Double

/-- The number of binary digits of `n`, by repeated halving. -/
def bitLengthAux : Nat → Nat → Nat
  | 0, _ => 0
  | fuel + 1, n => if n = 0 then 0 else bitLengthAux fuel (n / 2) + 1

/-- The number of binary digits of `n`: `2^(bitLength n - 1) ≤ n < 2^(bitLength n)`. -/
def bitLength (n : Nat) : Nat := bitLengthAux n n

/-- The integer nearest to `n / 2^k`, ties to even. -/
def roundShift (n k : Nat) : Nat :=
  let q := n / 2 ^ k
  let r := n % 2 ^ k
  if 2 ^ k < 2 * r ∨ (2 * r = 2 ^ k ∧ q % 2 = 1) then q + 1 else q

/-- The exponent of the double nearest to `n * 2^E` (`n > 0`): 53 significant
bits, but never below the smallest exponent `-1074`. -/
def roundExp (n : Nat) (E : Int) : Int := max (E + bitLength n - 53) (-1074)

/-- The significand of the double nearest to `n * 2^E` at exponent
`roundExp n E`. -/
def roundMant (n : Nat) (E : Int) : Nat :=
  if roundExp n E ≤ E then n * 2 ^ (E - roundExp n E).toNat
  else roundShift n (roundExp n E - E).toNat

/-- The double nearest to `± n * 2^E`, ties to even; an infinity when the
rounded magnitude reaches `2^1024`. -/
def roundNearest (negative : Bool) (n : Nat) (E : Int) : Double :=
  if n = 0 then finite 0 0
  else if 1024 < roundExp n E + bitLength (roundMant n E) then inf negative
  else finite (if negative then -(roundMant n E : Int) else roundMant n E) (roundExp n E)

/-- Conversion of an `int` to `double`. -/
def ofInt (z : Int) : Double := roundNearest (decide (z < 0)) z.natAbs 0

/-- The product `a * b` of two doubles. -/
def mul : Double → Double → Double
  | finite m1 e1, finite m2 e2 => roundNearest (decide (m1 * m2 < 0)) (m1 * m2).natAbs (e1 + e2)
  | finite m _, inf s => if m = 0 then nan else inf (decide (m < 0) != s)
  | inf s, finite m _ => if m = 0 then nan else inf (decide (m < 0) != s)
  | inf s1, inf s2 => inf (s1 != s2)
  | nan, _ => nan
  | _, nan => nan

/-- The difference `a - b` of two doubles. -/
def sub : Double → Double → Double
  | finite m1 e1, finite m2 e2 =>
    let e := min e1 e2
    let d := m1 * 2 ^ (e1 - e).toNat - m2 * 2 ^ (e2 - e).toNat
    roundNearest (decide (d < 0)) d.natAbs e
  | finite _ _, inf s => inf (!s)
  | inf s, finite _ _ => inf s
  | inf s1, inf s2 => if s1 = s2 then nan else inf s1
  | nan, _ => nan
  | _, nan => nan

/-- The quotient `a / 2`: the exact quotient `m * 2^(e-1)`, rounded. -/
def divTwo : Double → Double
  | finite m e => roundNearest (decide (m < 0)) m.natAbs (e - 1)
  | inf s => inf s
  | nan => nan

/-- The comparison `a <= b`; false when an operand is NaN. -/
def le : Double → Double → Bool
  | finite m1 e1, finite m2 e2 =>
    let e := min e1 e2
    decide (m1 * 2 ^ (e1 - e).toNat ≤ m2 * 2 ^ (e2 - e).toNat)
  | finite _ _, inf s => !s
  | inf s, finite _ _ => s
  | inf s1, inf s2 => s1 || !s2
  | nan, _ => false
  | _, nan => false

/-- The comparison `a < b`; false when an operand is NaN. -/
def lt : Double → Double → Bool
  | finite m1 e1, finite m2 e2 =>
    let e := min e1 e2
    decide (m1 * 2 ^ (e1 - e).toNat < m2 * 2 ^ (e2 - e).toNat)
  | finite _ _, inf s => !s
  | inf s, finite _ _ => s
  | inf s1, inf s2 => s1 && !s2
  | nan, _ => false
  | _, nan => false

/-- Conversion of a `double` to `int` (`static_cast<int>` and the implicit
conversion on assignment): truncation toward zero.  The value given for NaN
and the infinities is arbitrary: that conversion is undefined. -/
def toInt : Double → Int
  | finite m e => if 0 ≤ e then m * 2 ^ e.toNat else Int.tdiv m (2 ^ (-e).toNat)
  | _ => 0

/-- The conversion to `int` is defined: the value is finite and its truncation
lies in the range of a 32-bit `int`. -/
def fitsInt : Double → Bool
  | finite m e => decide (-(2 : Int) ^ 31 ≤ (finite m e).toInt ∧ (finite m e).toInt < 2 ^ 31)
  | _ => false

/-- The rational value of a finite double. -/
def val : Double → ℚ
  | finite m e => (m : ℚ) * (2 : ℚ) ^ e
  | _ => 0

end Double

/-- Truncation of a rational toward zero.  This is the specification
`Double.toInt` is compared with. -/
def truncQ (q : ℚ) : Int := if 0 ≤ q then ⌊q⌋ else ⌈q⌉

/-- The rationals with 53 significant bits above the smallest exponent.  Every
finite double is one of them; the exponent is not bounded from above here, so
being nearest among them is at least as strong as being nearest among the
finite doubles (overflow is decided by `Double.roundNearest`). -/
def Representable (r : ℚ) : Prop :=
  ∃ m e : Int, |m| < 2 ^ 53 ∧ -1074 ≤ e ∧ r = (m : ℚ) * (2 : ℚ) ^ e

/-- The double `d` is finite and no representable number is nearer to `x`
than its value.  This is the specification the arithmetic operations are
compared with. -/
def Rounds (x : ℚ) (d : Double) : Prop :=
  (∃ m e, d = Double.finite m e) ∧ Representable d.val ∧
    ∀ r, Representable r → |d.val - x| ≤ |r - x|

/-! ## Data model -/

/-- The colour handed to `setPixelColor`: `QColor(red, green, blue, alpha)`. -/
structure QColor where
  red : Nat
  green : Nat
  blue : Nat
  alpha : Nat
  deriving DecidableEq, Repr, Inhabited

/-- A decoded cursor bitmap as returned by `XcursorFilenameLoadImage`:
`pixels` holds `width * height` packed 32-bit values. -/
structure XcursorImage where
  width : Nat
  height : Nat
  pixels : List Nat
  deriving DecidableEq, Repr

/-- A `QImage` holding a cursor glyph.  `cacheKey` is the identity Qt gives
the image; `pixels` is the row-major pixel store. -/
structure QImage where
  cacheKey : Nat
  width : Nat
  height : Nat
  pixels : List QColor
  deriving DecidableEq, Repr

/-- A `QIcon` built on a `CompatibleEngine` for `iconName`. -/
structure QIcon where
  iconName : String
  deriving DecidableEq, Repr

/-- One paint operation on a canvas. -/
inductive Draw where
  | image (x y : Int) (img : QImage)
  | icon (x y w h : Int) (icon : QIcon)
  deriving DecidableEq, Repr

/-- The image a thumbnail is painted on: the arguments given to the `QImage`
constructor, the device pixel ratio set on it, and the paint operations in
order.  `isNull` marks the default-constructed `QImage()`. -/
structure Canvas where
  isNull : Bool
  width : Int
  height : Int
  devicePixelRatio : Double
  draws : List Draw
  deriving DecidableEq

/-- The default-constructed `QImage()`. -/
def Canvas.null : Canvas := ⟨true, 0, 0, Double.ofInt 1, []⟩

/-- The theme handle used by `getGlobal`: `examples` is what `example()`
returns, `path` what `getPath()` returns. -/
structure Theme where
  examples : String
  path : String

/-- The process-wide state of the module. -/
structure Globals where
  g_ScaleFactor : Double

/-- State at program start: `static double g_ScaleFactor = 0.0`. -/
def Globals.initial : Globals := ⟨Double.finite 0 0⟩

/-- Calls that leave the module, in the order they are made. -/
inductive Effect where
  | mkpath (dirPath : String)
  | stat (path : String)
  | loadCursor (fileName : String) (size : Int)
  | iconLookup (theme iconName : String)
  | absolutePath (dir file : String)
  | save (out : String)
  | glob (pattern : String)
  | remove (path : String)
  deriving DecidableEq, Repr

/-- The collaborators of the module. -/
structure Env where
  /-- `utils::GetUserCacheDir()` -/
  cacheDir : String
  /-- `QString::arg(double)` -/
  arg : Double → String
  gtkVersion : Int
  cursorVersion : Int
  iconVersion : Int
  /-- `QDir::mkpath` -/
  mkpath : String → Bool
  /-- `QFileInfo::exists` -/
  fileExists : String → Bool
  /-- `QFileInfo::isFile` -/
  isFile : String → Bool
  /-- `QFileInfo::dir().absolutePath()` -/
  dirAbsolutePath : String → String
  /-- `QFileInfo::lastModified`, as a point in time -/
  lastModified : String → Int
  /-- `DFile::dir` -/
  dfileDir : String → String
  /-- `XcursorFilenameLoadImage` -/
  XcursorFilenameLoadImage : String → Int → Option XcursorImage
  /-- identity Qt assigns to the `QImage` created for a decoded file -/
  cacheKey : String → Int → Nat
  /-- `QIcon::isNull` of the icon built for `iconName` under theme `theme` -/
  iconIsNull : String → String → Bool
  /-- `QFileInfo::isRelative` -/
  isRelative : String → Bool
  /-- `QFileInfo(dir, file).absoluteFilePath()` -/
  absoluteFilePath : String → String → String
  /-- `QImage::save` -/
  save : Canvas → String → Bool
  /-- whether Qt can allocate the pixel buffer of an image of the given
  positive width and height -/
  allocates : Int → Int → Bool
  /-- the paths present in the filesystem, as seen by `DFile::glob` -/
  entries : List String

/-! ## Scale state -/

def UpdateScaleFactor (_g : Globals) (scaleFactor : Double) : Globals := ⟨scaleFactor⟩

def getScaleFactor (g : Globals) : Double := g.g_ScaleFactor

def checkScaleFactor (g : Globals) : Bool :=
  let scaleFactor := getScaleFactor g
  if Double.le scaleFactor (Double.ofInt 0) then false else true

/-! ## Cache paths -/

def getScaleDir (env : Env) (g : Globals) : String :=
  let scaleFactor := getScaleFactor g
  "X" ++ env.arg scaleFactor

def getTypeDir (type0 : String) (version : Int) : String :=
  type0 ++ "-v" ++ toString version

def prepareOutputPath (env : Env) (g : Globals) (type0 id : String) (version : Int) :
    String × List Effect :=
  let scaleDir := getScaleDir env g
  let typeDir := getTypeDir type0 version
  let cacheDir := env.cacheDir ++ "/deepin/dde-api/theme_thumb"
  let dirPath := cacheDir ++ "/" ++ scaleDir ++ "/" ++ typeDir
  if !env.mkpath dirPath then
    ("", [Effect.mkpath dirPath])
  else
    (dirPath ++ "/" ++ id ++ ".png", [Effect.mkpath dirPath])

/-! ## Staleness -/

def shouldGenerateNew (env : Env) (descFile out : String) : Bool × List Effect :=
  if !env.fileExists out then
    (true, [Effect.stat out])
  else
    let descFileInfo := if env.isFile descFile then env.dirAbsolutePath descFile else descFile
    (decide (env.lastModified descFileInfo > env.lastModified out),
      [Effect.stat out, Effect.stat descFile, Effect.stat descFileInfo])

def shouldGenerateNewCursor (env : Env) (descFile out : String) : Bool × List Effect :=
  let dir := env.dfileDir descFile
  shouldGenerateNew env dir out

/-! ## Cache garbage collection -/

/-- The `*` of a glob pattern: `k` must accept some suffix reached by skipping
characters other than the path separator. -/
def globStar (k : List Char → Bool) : List Char → Bool
  | [] => k []
  | c :: cs => k (c :: cs) || (c != '/' && globStar k cs)

/-- Match of a path against a glob pattern in which `*` stands for any run of
characters within one path component. -/
def globMatch : List Char → List Char → Bool
  | [], path => path.isEmpty
  | p :: ps, path =>
    if p = '*' then globStar (globMatch ps) path
    else
      match path with
      | [] => false
      | c :: cs => p == c && globMatch ps cs

/-- Modelled from the spec: `DFile::glob` (declared in `../api/dfile.h`, not
part of the sources at hand), the "directory glob (`pattern → sequence<path>`)"
collaborator: the paths of the filesystem that match the pattern. -/
def DFile.glob (entries : List String) (pattern : String) : List String :=
  entries.filter (fun path => globMatch pattern.toList path.toList)

/-- Modelled from the spec: `DFile::base` (declared in `../api/dfile.h`, not
part of the sources at hand): the name of a directory entry, that is the last
component of its path. -/
def DFile.base (path : String) : String :=
  String.mk ((path.toList.reverse.takeWhile (fun c => c != '/')).reverse)

def removeUnusedDirs (env : Env) (pattern userDir : String) : List Effect :=
  let dirs := DFile.glob env.entries pattern
  if dirs.isEmpty then
    [Effect.glob pattern]
  else
    dirs.foldl
      (fun log dir => if DFile.base dir != userDir then log ++ [Effect.remove dir] else log)
      [Effect.glob pattern]

def removeOldVersionDirs (env : Env) (scaleDir type0 : String) (version : Int) : List Effect :=
  let cacheDir := env.cacheDir ++ "/deepin/dde-api/theme_thumb"
  let pattern := cacheDir ++ "/" ++ scaleDir ++ "/" ++ type0 ++ "/-v*"
  let usedDir := getTypeDir type0 version
  removeUnusedDirs env pattern usedDir

def removeAllTypesOldVersionDirs (env : Env) (g : Globals) : List Effect :=
  let scaleDir := getScaleDir env g
  removeOldVersionDirs env scaleDir "gtk" env.gtkVersion
    ++ removeOldVersionDirs env scaleDir "cursor" env.cursorVersion
    ++ removeOldVersionDirs env scaleDir "icon" env.iconVersion

def removeUnusedScaleDirs (env : Env) (g : Globals) : List Effect :=
  let cacheDir := env.cacheDir ++ "/deepin/dde-api/theme_thumb"
  removeUnusedDirs env (cacheDir ++ "/X*") (getScaleDir env g)

def init (env : Env) (g : Globals) : List Effect :=
  removeUnusedScaleDirs env g ++ removeAllTypesOldVersionDirs env g

/-- The directory entries left once every `remove` of a sweep has succeeded. -/
def remaining (entries : List String) (log : List Effect) : List String :=
  entries.filter (fun path => !log.contains (Effect.remove path))

/-! ## Cursor bitmaps -/

/-- `QImage::setPixelColor`: a write inside the image bounds, nothing
otherwise. -/
def QImage.setPixelColor (q : QImage) (x y : Nat) (color : QColor) : QImage :=
  if x < q.width ∧ y < q.height then
    { q with pixels := q.pixels.set (y * q.width + x) color }
  else q

/-- `QImage::pixelColor`. -/
def QImage.pixelColor (q : QImage) (x y : Nat) : QColor :=
  q.pixels.getD (y * q.width + x) default

/-- Body of the inner loop of `fromXCurorImageToQImage`; the state is the
running index `i` and the image under construction. -/
def convertPixel (tempPixel : List Nat) (y : Nat) (st : Nat × QImage) (x : Nat) :
    Nat × QImage :=
  let i := st.1
  let alpha := tempPixel.getD i 0 >>> 24
  let red := (tempPixel.getD i 0 >>> 16) &&& 0xff
  let green := (tempPixel.getD i 0 >>> 8) &&& 0xff
  let blue := tempPixel.getD i 0 &&& 0xff
  let color : QColor := ⟨red, green, blue, alpha⟩
  (i + 1, st.2.setPixelColor x y color)

/-- The colour a packed 32-bit pixel stands for: alpha in bits 31..24, red in
23..16, green in 15..8, blue in 7..0.  This is the specification the
conversion loop is compared with. -/
def unpackPixel (p : Nat) : QColor :=
  { red := (p >>> 16) &&& 0xff
    green := (p >>> 8) &&& 0xff
    blue := p &&& 0xff
    alpha := p >>> 24 }

/-- Body of the outer loop: one row. -/
def convertRow (image : XcursorImage) (st : Nat × QImage) (y : Nat) : Nat × QImage :=
  (List.range image.width).foldl (convertPixel image.pixels y) st

/-- The conversion `fromXCurorImageToQImage`; `key` is the identity of the
freshly allocated `QImage`. -/
def fromXCurorImageToQImage (key : Nat) (image : XcursorImage) : QImage :=
  let qImage : QImage :=
    ⟨key, image.width, image.height, List.replicate (image.width * image.height) default⟩
  ((List.range image.height).foldl (convertRow image) (0, qImage)).2

def loadXCursor (env : Env) (fileName : String) (size : Int) : Option QImage :=
  match env.XcursorFilenameLoadImage fileName size with
  | none => none
  | some xcursorImage =>
    some (fromXCurorImageToQImage (env.cacheKey fileName size) xcursorImage)

/-! ## Candidate selection -/

/-- The scan `for(auto tempImage: images)` of `getCursors`: the value of `bAdd`
after it. -/
def scanSelected (image : QImage) : List QImage → Bool
  | [] => true
  | tempImage :: rest =>
    if tempImage.cacheKey == image.cacheKey then false else scanSelected image rest

/-- The loop `for(auto iter : cursors)` of `getCursors` over one group. -/
def cursorGroupLoop (env : Env) (dir : String) (size : Int) :
    List String → List QImage × List Effect → List QImage × List Effect
  | [], st => st
  | iter :: rest, (images, log) =>
    let fileName := dir ++ "/" ++ iter
    let log := log ++ [Effect.loadCursor fileName size]
    match loadXCursor env fileName size with
    | none => cursorGroupLoop env dir size rest (images, log)
    | some image =>
      let bAdd := scanSelected image images
      if bAdd then (images ++ [image], log)
      else cursorGroupLoop env dir size rest (images, log)

def getCursors (env : Env) (dir : String) (size : Int) : List QImage × List Effect :=
  presentCursors.foldl (fun st cursors => cursorGroupLoop env dir size cursors st) ([], [])

/-- What candidate `name` can add to the images selected so far: its decoded
image, provided it decodes and no selected image carries its cache key.  This
is the specification the loop over a group is compared with. -/
def contributes (env : Env) (dir : String) (size : Int) (images : List QImage)
    (name : String) : Option QImage :=
  (loadXCursor env (dir ++ "/" ++ name) size).filter (fun image => scanSelected image images)

/-- The loop `for (auto &&iconName:icons)` of `getIcons` over one group. -/
def iconGroupLoop (env : Env) (theme : String) :
    List String → List QIcon × List Effect → List QIcon × List Effect
  | [], st => st
  | iconName :: rest, (images, log) =>
    let log := log ++ [Effect.iconLookup theme iconName]
    if !env.iconIsNull theme iconName then (images ++ [QIcon.mk iconName], log)
    else iconGroupLoop env theme rest (images, log)

def getIcons (env : Env) (theme : String) (_size : Int) : List QIcon × List Effect :=
  presentIcons.foldl (fun st icons => iconGroupLoop env theme icons st) ([], [])

/-! ## Compositor -/

/-- The constructor `QImage(width, height, format)`: the null image when a
dimension is not positive or the pixel buffer cannot be allocated, otherwise
an image of that size with device pixel ratio 1 and nothing painted. -/
def newImage (env : Env) (width height : Int) : Canvas :=
  if width ≤ 0 ∨ height ≤ 0 ∨ env.allocates width height = false then Canvas.null
  else ⟨false, width, height, Double.ofInt 1, []⟩

/-- The paint loop of `CompositeImages`; the state is the running `x` and the
operations painted so far. -/
def drawImages (y iconSize padding : Int) (st : Int × List Draw) (iter : QImage) :
    Int × List Draw :=
  (st.1 + (iconSize + padding), st.2 ++ [Draw.image st.1 y iter])

/-- The canvas width `CompositeImages` computes for `n` images: the two
assignments to `width`. -/
def canvasWidth (scaleFactor : Double) (n iconSize padding : Int) : Int :=
  let width : Int := iconSize * n + padding * (n - 1)
  Double.toInt (Double.mul (Double.ofInt width) scaleFactor)

/-- The local `spaceW` of `CompositeImages` for `n` images. -/
def spaceW (scaleFactor : Double) (n iconSize padding : Int) : Int :=
  let width := canvasWidth scaleFactor n iconSize padding
  Double.toInt
    (Double.sub (Double.ofInt width) (Double.mul (Double.ofInt (iconSize * n)) scaleFactor))

/-- The operand `spaceW - (images.size() - 1) * padding * scaleFactor` of the
division that gives `x`. -/
def startOperand (scaleFactor : Double) (n iconSize padding : Int) : Double :=
  let spaceW := spaceW scaleFactor n iconSize padding
  Double.sub (Double.ofInt spaceW) (Double.mul (Double.ofInt ((n - 1) * padding)) scaleFactor)

/-- The starting offset `x` of `CompositeImages` for `n` images. -/
def startX (scaleFactor : Double) (n iconSize padding : Int) : Int :=
  Double.toInt (Double.divTwo (startOperand scaleFactor n iconSize padding))

/-- The vertical offset `y` of `CompositeImages`; `height` is the scaled
height. -/
def startY (scaleFactor : Double) (height iconSize : Int) : Int :=
  Double.toInt
    (Double.divTwo
      (Double.sub (Double.ofInt height) (Double.mul (Double.ofInt iconSize) scaleFactor)))

def CompositeImages (env : Env) (g : Globals) (images : List QImage)
    (_width height iconSize padding : Int) : Canvas :=
  if images.isEmpty then
    Canvas.null
  else
    let images := images.take 9
    let n : Int := images.length
    let scaleFactor := getScaleFactor g
    let width : Int := canvasWidth scaleFactor n iconSize padding
    let height : Int := Double.toInt (Double.mul (Double.ofInt height) scaleFactor)
    let image := newImage env width height
    let x : Int := startX scaleFactor n iconSize padding
    let y : Int := startY scaleFactor height iconSize
    if image.isNull then
      image
    else
      { image with
        devicePixelRatio := scaleFactor
        draws := (images.foldl (drawImages y iconSize padding) (x, [])).2 }

def genCursor (env : Env) (g : Globals) (descFile : String) (width height : Int)
    (scaleFactor : Double) (out : String) : Bool × List Effect :=
  let dirPath := descFile ++ "/cursors"
  let iconSize := Double.toInt (Double.mul (Double.ofInt baseCursorSize) scaleFactor)
  let padding := Double.toInt (Double.mul (Double.ofInt baseCursorPadding) scaleFactor)
  let width := Double.toInt (Double.mul (Double.ofInt width) scaleFactor)
  let height := Double.toInt (Double.mul (Double.ofInt height) scaleFactor)
  let images := getCursors env dirPath iconSize
  let image := CompositeImages env g images.1 width height iconSize padding
  if env.save image out then
    (true, images.2 ++ [Effect.save out])
  else
    (true, images.2 ++ [Effect.save out])

/-- The paint loop of `genIcon`. -/
def paintIcons (y iconSize padding : Int) (st : Int × List Draw) (iter : QIcon) :
    Int × List Draw :=
  (st.1 + (iconSize + padding), st.2 ++ [Draw.icon st.1 y iconSize iconSize iter])

/-- The image `genIcon` builds before saving it. -/
def genIconImage (env : Env) (images : List QIcon) (width height : Int)
    (scaleFactor : Double) : Canvas :=
  let iconSize := Double.toInt (Double.mul (Double.ofInt baseIconSize) scaleFactor)
  let padding := Double.toInt (Double.mul (Double.ofInt baseIconPadding) scaleFactor)
  let width := Double.toInt (Double.mul (Double.ofInt width) scaleFactor)
  let height := Double.toInt (Double.mul (Double.ofInt height) scaleFactor)
  let image := newImage env width height
  let n : Int := images.length
  let spaceW : Int := width - iconSize * n
  let x : Int := Int.tdiv (spaceW - (n - 1) * padding) 2
  let y : Int := Int.tdiv (height - iconSize) 2
  if image.isNull then
    image
  else
    { image with draws := (images.foldl (paintIcons y iconSize padding) (x, [])).2 }

def genIcon (env : Env) (theme : String) (width height : Int) (scaleFactor : Double)
    (out : String) : Bool × List Effect :=
  let iconSize := Double.toInt (Double.mul (Double.ofInt baseIconSize) scaleFactor)
  let images := getIcons env theme iconSize
  let image := genIconImage env images.1 width height scaleFactor
  (env.save image out, images.2 ++ [Effect.save out])

/-! ## Entry points -/

def getCursor (env : Env) (g : Globals) (id descFile : String) : String × List Effect :=
  if !checkScaleFactor g then
    ("", [])
  else
    let out := prepareOutputPath env g "cursor" id env.cursorVersion
    let fresh := shouldGenerateNewCursor env descFile out.1
    if !fresh.1 then
      (out.1, out.2 ++ fresh.2)
    else
      let scaleFactor := getScaleFactor g
      let gen := genCursor env g descFile width height scaleFactor out.1
      if !gen.1 then
        ("", out.2 ++ fresh.2 ++ gen.2)
      else
        (out.1, out.2 ++ fresh.2 ++ gen.2)

def getIcon (env : Env) (g : Globals) (id descFile : String) : String × List Effect :=
  if !checkScaleFactor g then
    ("", [])
  else
    let out := prepareOutputPath env g "icon" id env.iconVersion
    let fresh := shouldGenerateNew env descFile out.1
    if !fresh.1 then
      (out.1, out.2 ++ fresh.2)
    else
      let scaleFactor := getScaleFactor g
      let gen := genIcon env id width height scaleFactor out.1
      if !gen.1 then
        ("", out.2 ++ fresh.2 ++ gen.2)
      else
        (out.1, out.2 ++ fresh.2 ++ gen.2)

def getGlobal (env : Env) (g : Globals) (_id : String) (theme : Theme) (gtkTheme : String) :
    String × List Effect :=
  if !checkScaleFactor g then
    ("", [])
  else
    let examples := theme.examples.splitOn ","
    if !examples.isEmpty then
      let isdark := gtkTheme == "deepin-dark"
      let path := if isdark then examples.getLastD "" else examples.headD ""
      if env.isRelative path then
        (env.absoluteFilePath theme.path path, [Effect.absolutePath theme.path path])
      else
        (path, [])
    else
      ("", [])

/-! ## Concrete environments -/

/-- A one-pixel cursor bitmap. -/
def dot (pixel : Nat) : XcursorImage := ⟨1, 1, [pixel]⟩

/-- An environment with an empty cache under `/c`, scale directory `X1`, all
format versions 1, in which no cursor file decodes, no icon resolves, every
image of positive size can be allocated and saving an image succeeds exactly
when the image is not null. -/
def bareEnv : Env where
  cacheDir := "/c"
  arg := fun _ => "1"
  gtkVersion := 1
  cursorVersion := 1
  iconVersion := 1
  mkpath := fun _ => true
  fileExists := fun _ => false
  isFile := fun _ => false
  dirAbsolutePath := fun p => p
  lastModified := fun _ => 0
  dfileDir := fun p => p
  XcursorFilenameLoadImage := fun _ _ => none
  cacheKey := fun _ _ => 0
  iconIsNull := fun _ _ => true
  isRelative := fun _ => false
  absoluteFilePath := fun _ f => f
  save := fun image _ => !image.isNull
  allocates := fun _ _ => true
  entries := []

/-- An environment in which every path exists, `/t/index.theme` is a regular
file inside `/t`, and `/t` was modified at time 7, everything else at time 5. -/
def staleEnv : Env :=
  { bareEnv with
    fileExists := fun _ => true
    isFile := fun p => p == "/t/index.theme"
    dirAbsolutePath := fun _ => "/t"
    lastModified := fun p => if p == "/t" then 7 else 5 }

/-- The environment `bareEnv` with an icon theme in which only `user-trash`
resolves. -/
def trashEnv : Env :=
  { bareEnv with iconIsNull := fun _ iconName => iconName != "user-trash" }

/-- The environment `bareEnv` with current cursor version 2 and the version
directories `cursor-v1` and `cursor-v2` present under the scale directory
`X1`. -/
def sweepEnv : Env :=
  { bareEnv with
    cursorVersion := 2
    entries :=
      [ "/c/deepin/dde-api/theme_thumb/X1/cursor-v1",
        "/c/deepin/dde-api/theme_thumb/X1/cursor-v2" ] }

/-- The environment `bareEnv` with a cursor theme that ships `left_ptr`,
`hand2` and `hand1`, where `hand2` is a copy of `left_ptr` (the same bitmap)
and `hand1` another bitmap.  Every decoded file gets a `QImage` of its own,
so the three cache keys differ. -/
def symlinkEnv : Env :=
  { bareEnv with
    XcursorFilenameLoadImage := fun fileName _ =>
      if fileName == "/t/cursors/left_ptr" then some (dot 0xff000000)
      else if fileName == "/t/cursors/hand2" then some (dot 0xff000000)
      else if fileName == "/t/cursors/hand1" then some (dot 0xffffffff)
      else none
    cacheKey := fun fileName _ =>
      if fileName == "/t/cursors/left_ptr" then 1
      else if fileName == "/t/cursors/hand2" then 2
      else if fileName == "/t/cursors/hand1" then 3
      else 0 }

/-- A 2 x 2 cursor bitmap with four distinct pixels. -/
def quad : XcursorImage := ⟨2, 2, [0x80112233, 0xff000000, 0x00ffffff, 0x7f7f7f7f]⟩

/-- A one-pixel glyph with identity `key`. -/
def glyph (key : Nat) : QImage := ⟨key, 1, 1, [default]⟩

/-- The double nearest to 1.2. -/
def d1_2 : Double := Double.finite 5404319552844595 (-52)

/-- The double nearest to 1.16. -/
def d1_16 : Double := Double.finite 5224175567749775 (-52)

/-- The double 1/64. -/
def d1_64 : Double := Double.finite 1 (-6)

/-! ## Rounding to the nearest double -/

open Double

set_option maxRecDepth 100000

theorem bitLengthAux_spec (fuel n : Nat) (h : n ≤ fuel) :
    n < 2 ^ bitLengthAux fuel n ∧ (n ≠ 0 → 2 ^ (bitLengthAux fuel n - 1) ≤ n) := by
  induction fuel generalizing n with
  | zero =>
    have : n = 0 := by omega
    subst this
    simp [bitLengthAux]
  | succ fuel ih =>
    unfold bitLengthAux
    by_cases hn : n = 0
    · simp [hn]
    · simp only [hn, if_false]
      have h2 : n / 2 ≤ fuel := by omega
      obtain ⟨h3, h4⟩ := ih (n / 2) h2
      constructor
      · rw [pow_succ]
        omega
      · intro _
        simp only [Nat.add_sub_cancel]
        by_cases hn2 : n / 2 = 0
        · have : bitLengthAux fuel (n / 2) = 0 := by
            rw [hn2]
            cases fuel <;> simp [bitLengthAux]
          rw [this]
          simp
          omega
        · have h5 := h4 hn2
          have h6 : bitLengthAux fuel (n / 2) ≠ 0 := by
            intro h0
            rw [h0] at h3
            simp at h3
            exact hn2 h3
          have e : bitLengthAux fuel (n / 2) = (bitLengthAux fuel (n / 2) - 1) + 1 := by omega
          rw [e, pow_succ]
          omega

theorem bitLength_lt (n : Nat) : n < 2 ^ bitLength n :=
  (bitLengthAux_spec n n le_rfl).1

theorem bitLength_le (n : Nat) (h : n ≠ 0) : 2 ^ (bitLength n - 1) ≤ n :=
  (bitLengthAux_spec n n le_rfl).2 h

theorem bitLength_pos (n : Nat) (h : n ≠ 0) : 0 < bitLength n := by
  by_contra h0
  have h1 : bitLength n = 0 := by omega
  have h2 := bitLength_lt n
  rw [h1] at h2
  simp at h2
  exact h h2

theorem nearest_int_aux (P q ρ n m j : Int) (hP : 0 < P) (hn : n = q * P + ρ) (h0 : 0 ≤ ρ)
    (h1 : ρ < P) (hm : (m = q ∧ 2 * ρ ≤ P) ∨ (m = q + 1 ∧ P ≤ 2 * ρ)) :
    |m * P - n| ≤ |j * P - n| := by
  have hj : j ≤ q ∨ q + 1 ≤ j := by omega
  have hjP : j * P ≤ q * P ∨ q * P + P ≤ j * P := by
    rcases hj with h | h
    · left; exact mul_le_mul_of_nonneg_right h hP.le
    · right
      have := mul_le_mul_of_nonneg_right h hP.le
      rw [add_mul, one_mul] at this
      exact this
  have hmP : (m * P = q * P ∧ 2 * ρ ≤ P) ∨ (m * P = q * P + P ∧ P ≤ 2 * ρ) := by
    rcases hm with ⟨h, h'⟩ | ⟨h, h'⟩
    · left; exact ⟨by rw [h], h'⟩
    · right; exact ⟨by rw [h, add_mul, one_mul], h'⟩
  generalize m * P = c at *
  generalize j * P = a at *
  generalize q * P = b at *
  rw [abs_le]
  constructor
  · rcases hjP with h | h <;> rcases hmP with ⟨h2, h3⟩ | ⟨h2, h3⟩ <;>
      cases abs_cases (a - n) <;> omega
  · rcases hjP with h | h <;> rcases hmP with ⟨h2, h3⟩ | ⟨h2, h3⟩ <;>
      cases abs_cases (a - n) <;> omega

/-- `roundShift n k` is an integer nearest to `n / 2^k`. -/
theorem roundShift_nearest (n k : Nat) (j : Int) :
    |((roundShift n k : Nat) : Int) * 2 ^ k - n| ≤ |j * 2 ^ k - n| := by
  have hdm := Nat.div_add_mod n (2 ^ k)
  have hlt := Nat.mod_lt n (show 0 < 2 ^ k by positivity)
  have hPc : ((2 : Int) ^ k) = ((2 ^ k : Nat) : Int) := by push_cast; rfl
  rw [hPc]
  unfold roundShift
  simp only
  generalize n / 2 ^ k = q at *
  generalize n % 2 ^ k = ρ at *
  generalize 2 ^ k = P at *
  apply nearest_int_aux (P : Int) (q : Int) (ρ : Int) (n : Int) _ j
  · omega
  · have : ((P * q + ρ : Nat) : Int) = (n : Int) := by rw [hdm]
    push_cast at this
    linarith
  · omega
  · omega
  · split
    · rename_i hc
      right
      constructor
      · push_cast; rfl
      · omega
    · rename_i hc
      left
      constructor
      · rfl
      · omega

theorem roundShift_bounds (n k : Nat) :
    n / 2 ^ k ≤ roundShift n k ∧ roundShift n k ≤ n / 2 ^ k + 1 := by
  unfold roundShift
  simp only
  split <;> omega

theorem two_zpow_pos (e : Int) : (0 : ℚ) < (2 : ℚ) ^ e := zpow_pos (by norm_num) e

theorem two_zpow_le {a b : Int} (h : a ≤ b) : (2 : ℚ) ^ a ≤ (2 : ℚ) ^ b :=
  zpow_le_zpow_right₀ (by norm_num) h

theorem two_zpow_lt_iff {a b : Int} : (2 : ℚ) ^ a < (2 : ℚ) ^ b ↔ a < b :=
  zpow_lt_zpow_iff_right₀ (by norm_num)

theorem two_zpow_add (a b : Int) : (2 : ℚ) ^ (a + b) = (2 : ℚ) ^ a * (2 : ℚ) ^ b :=
  zpow_add₀ (by norm_num) a b

theorem two_zpow_nat (k : Nat) : (2 : ℚ) ^ (k : Int) = ((2 ^ k : Nat) : ℚ) := by
  rw [zpow_natCast]
  push_cast
  rfl

theorem bitLength_zero : bitLength 0 = 0 := rfl

theorem bitLength_le_of_lt (n j : Nat) (h : n < 2 ^ j) : bitLength n ≤ j := by
  by_cases hn : n = 0
  · subst hn
    rw [bitLength_zero]
    omega
  · have h1 := bitLength_le n hn
    have h2 : 2 ^ (bitLength n - 1) < 2 ^ j := lt_of_le_of_lt h1 h
    have h3 := (Nat.pow_lt_pow_iff_right (by norm_num : 1 < 2)).mp h2
    omega

theorem representable_of_le (m : Nat) (e : Int) (hm : m ≤ 2 ^ 53) (he : -1074 ≤ e) :
    Representable ((m : ℚ) * (2 : ℚ) ^ e) := by
  by_cases h : m = 2 ^ 53
  · refine ⟨2 ^ 52, e + 1, by norm_num, by omega, ?_⟩
    rw [h, two_zpow_add]
    push_cast
    ring
  · refine ⟨(m : Int), e, ?_, he, by push_cast; rfl⟩
    have : m < 2 ^ 53 := by omega
    rw [abs_of_nonneg (by positivity)]
    exact_mod_cast this

theorem Representable.neg {r : ℚ} (h : Representable r) : Representable (-r) := by
  obtain ⟨m, e, hm, he, hr⟩ := h
  refine ⟨-m, e, by rwa [abs_neg], he, ?_⟩
  rw [hr]
  push_cast
  ring

theorem representable_zero : Representable 0 := ⟨0, 0, by norm_num, by norm_num, by simp⟩


theorem round_core (n : Nat) (E : Int) (hn : n ≠ 0) :
    roundExp n E + bitLength (roundMant n E) ≤ max (E + bitLength n + 1) (-1020) ∧
    -1074 ≤ roundExp n E ∧ roundMant n E ≤ 2 ^ 53 ∧
    ∀ r, Representable r →
      |(roundMant n E : ℚ) * (2 : ℚ) ^ roundExp n E - (n : ℚ) * (2 : ℚ) ^ E|
        ≤ |r - (n : ℚ) * (2 : ℚ) ^ E| := by
  have hL1 := bitLength_lt n
  have hL2 := bitLength_le n hn
  have hLpos := bitLength_pos n hn
  obtain ⟨e, hre⟩ : ∃ e, roundExp n E = e := ⟨_, rfl⟩
  have he : e = max (E + (bitLength n : Int) - 53) (-1074) := by
    rw [← hre]
    rfl
  have hmdef : roundMant n E = if e ≤ E then n * 2 ^ (E - e).toNat
      else roundShift n (e - E).toNat := by
    unfold roundMant
    rw [hre]
  rw [hre]
  by_cases hc : e ≤ E
  · rw [if_pos hc] at hmdef
    have hm : roundMant n E < 2 ^ 53 := by
      rw [hmdef]
      have h1 : bitLength n + (E - e).toNat ≤ 53 := by omega
      calc n * 2 ^ (E - e).toNat
          < 2 ^ bitLength n * 2 ^ (E - e).toNat :=
            Nat.mul_lt_mul_of_pos_right hL1 (by positivity)
        _ = 2 ^ (bitLength n + (E - e).toNat) := by rw [pow_add]
        _ ≤ 2 ^ 53 := Nat.pow_le_pow_right (by norm_num) h1
    have hbl : bitLength (roundMant n E) ≤ bitLength n + (E - e).toNat := by
      apply bitLength_le_of_lt
      rw [hmdef, pow_add]
      exact Nat.mul_lt_mul_of_pos_right hL1 (by positivity)
    refine ⟨by omega, by omega, hm.le, ?_⟩
    · intro r _
      have hval : (roundMant n E : ℚ) * (2 : ℚ) ^ e = (n : ℚ) * (2 : ℚ) ^ E := by
        have e1 : E = ((E - e).toNat : Int) + e := by omega
        rw [hmdef]
        nth_rewrite 2 [e1]
        rw [two_zpow_add, two_zpow_nat]
        push_cast
        ring
      rw [hval, sub_self, abs_zero]
      exact abs_nonneg _
  · rw [if_neg hc] at hmdef
    have hq : n / 2 ^ (e - E).toNat < 2 ^ 53 := by
      rw [Nat.div_lt_iff_lt_mul (by positivity), ← pow_add]
      calc n < 2 ^ bitLength n := hL1
        _ ≤ 2 ^ (53 + (e - E).toNat) := Nat.pow_le_pow_right (by norm_num) (by omega)
    have hb := roundShift_bounds n (e - E).toNat
    have hm : roundMant n E ≤ 2 ^ 53 := by
      rw [hmdef]
      omega
    have hbl : bitLength (roundMant n E) ≤ 54 := by
      apply bitLength_le_of_lt
      have : (2 : Nat) ^ 54 = 2 * 2 ^ 53 := by norm_num
      omega
    refine ⟨by omega, by omega, hm, ?_⟩
    · intro r hr
      -- x = n * 2^E, with E = e - k
      have hE : E = e + -((e - E).toNat : Int) := by omega
      have hpk : (2 : ℚ) ^ E * ((2 ^ (e - E).toNat : Nat) : ℚ) = (2 : ℚ) ^ e := by
        rw [← two_zpow_nat, ← two_zpow_add]
        congr 1
        omega
      have hEpos := two_zpow_pos E
      have hdist : ∀ j : Int, (j : ℚ) * (2 : ℚ) ^ e - (n : ℚ) * (2 : ℚ) ^ E
          = ((j * 2 ^ (e - E).toNat - (n : Int) : Int) : ℚ) * (2 : ℚ) ^ E := by
        intro j
        rw [← hpk]
        push_cast
        ring
      have hlhs : |(roundMant n E : ℚ) * (2 : ℚ) ^ e - (n : ℚ) * (2 : ℚ) ^ E|
          = ((|((roundMant n E : Nat) : Int) * 2 ^ (e - E).toNat - (n : Int)| : Int) : ℚ)
            * (2 : ℚ) ^ E := by
        have := hdist (roundMant n E : Int)
        push_cast at this
        rw [this, abs_mul, abs_of_pos hEpos]
        push_cast
        rfl
      obtain ⟨mr, er, hmr, her, hrv⟩ := hr
      by_cases hcase : e ≤ er
      · -- r is a multiple of 2^e
        have hrj : r = (((mr * 2 ^ (er - e).toNat : Int)) : ℚ) * (2 : ℚ) ^ e := by
          have e1 : er = ((er - e).toNat : Int) + e := by omega
          rw [hrv]
          nth_rewrite 1 [e1]
          rw [two_zpow_add, two_zpow_nat]
          push_cast
          ring
        rw [hlhs, hrj, hdist, abs_mul, abs_of_pos hEpos]
        apply mul_le_mul_of_nonneg_right _ hEpos.le
        have hn1 := roundShift_nearest n (e - E).toNat (mr * 2 ^ (er - e).toNat)
        rw [← hmdef] at hn1
        have : ((|((roundMant n E : Nat) : Int) * 2 ^ (e - E).toNat - (n : Int)| : Int) : ℚ)
            ≤ ((|mr * 2 ^ (er - e).toNat * 2 ^ (e - E).toNat - (n : Int)| : Int) : ℚ) := by
          exact_mod_cast hn1
        push_cast at this ⊢
        exact this
      · -- r lies below the binade of x
        have hk : (e - E).toNat + 53 = bitLength n := by omega
        have hq52 : 2 ^ 52 ≤ n / 2 ^ (e - E).toNat := by
          rw [Nat.le_div_iff_mul_le (by positivity), ← pow_add]
          have : 52 + (e - E).toNat = bitLength n - 1 := by omega
          rw [this]
          exact hL2
        have hqn : n / 2 ^ (e - E).toNat * 2 ^ (e - E).toNat ≤ n := Nat.div_mul_le_self _ _
        have hn1 := roundShift_nearest n (e - E).toNat ((n / 2 ^ (e - E).toNat : Nat) : Int)
        rw [← hmdef] at hn1
        generalize n / 2 ^ (e - E).toNat = Q at hq52 hqn hn1
        have hqn' : (Q : Int) * 2 ^ (e - E).toNat ≤ (n : Int) := by exact_mod_cast hqn
        rw [abs_of_nonpos (a := (Q : Int) * 2 ^ (e - E).toNat - (n : Int)) (by omega)] at hn1
        have hn2 : ((|((roundMant n E : Nat) : Int) * 2 ^ (e - E).toNat - (n : Int)| : Int) : ℚ)
            ≤ ((-((Q : Int) * 2 ^ (e - E).toNat - (n : Int)) : Int) : ℚ) := by
          exact_mod_cast hn1
        have hd := hdist (Q : Int)
        have hrabs : |r| < (2 : ℚ) ^ (52 : Int) * (2 : ℚ) ^ e := by
          rw [hrv, abs_mul, abs_of_pos (two_zpow_pos er)]
          have h1 : |(mr : ℚ)| < (2 : ℚ) ^ (53 : Int) := by
            have : ((|mr| : Int) : ℚ) < ((2 ^ 53 : Int) : ℚ) := by exact_mod_cast hmr
            push_cast at this
            rw [zpow_ofNat]
            exact this
          have h2 : (2 : ℚ) ^ er ≤ (2 : ℚ) ^ (e - 1) := two_zpow_le (by omega)
          have h3 : (2 : ℚ) ^ (53 : Int) * (2 : ℚ) ^ (e - 1) = (2 : ℚ) ^ (52 : Int) * (2 : ℚ) ^ e := by
            rw [← two_zpow_add, ← two_zpow_add]
            congr 1
            omega
          calc |(mr : ℚ)| * (2 : ℚ) ^ er
              ≤ |(mr : ℚ)| * (2 : ℚ) ^ (e - 1) :=
                mul_le_mul_of_nonneg_left h2 (abs_nonneg _)
            _ < (2 : ℚ) ^ (53 : Int) * (2 : ℚ) ^ (e - 1) :=
                mul_lt_mul_of_pos_right h1 (two_zpow_pos _)
            _ = _ := h3
        have hq52' : (2 : ℚ) ^ (52 : Int) * (2 : ℚ) ^ e ≤ (Q : ℚ) * (2 : ℚ) ^ e := by
          apply mul_le_mul_of_nonneg_right _ (two_zpow_pos e).le
          have : ((2 ^ 52 : Nat) : ℚ) ≤ (Q : ℚ) := by exact_mod_cast hq52
          rw [zpow_ofNat]
          push_cast at this
          exact this
        rw [hlhs]
        have hstep : ((|((roundMant n E : Nat) : Int) * 2 ^ (e - E).toNat - (n : Int)| : Int) : ℚ)
            * (2 : ℚ) ^ E
            ≤ ((-((Q : Int) * 2 ^ (e - E).toNat - (n : Int)) : Int) : ℚ) * (2 : ℚ) ^ E :=
          mul_le_mul_of_nonneg_right hn2 hEpos.le
        have hd2 : ((-((Q : Int) * 2 ^ (e - E).toNat - (n : Int)) : Int) : ℚ) * (2 : ℚ) ^ E
            = (n : ℚ) * (2 : ℚ) ^ E - (Q : ℚ) * (2 : ℚ) ^ e := by
          have h := hd
          rw [Int.cast_neg, neg_mul, ← h]
          push_cast
          ring
        have hfin : (n : ℚ) * (2 : ℚ) ^ E - |r| ≤ |r - (n : ℚ) * (2 : ℚ) ^ E| := by
          have h1 := neg_abs_le (r - (n : ℚ) * (2 : ℚ) ^ E)
          have h2 := le_abs_self r
          linarith
        linarith

theorem bitLength_add_le (n : Nat) (E : Int) (hn : n ≠ 0)
    (hsmall : (n : ℚ) * (2 : ℚ) ^ E < (2 : ℚ) ^ (1023 : Int)) :
    E + (bitLength n : Int) ≤ 1023 := by
  have hL2 := bitLength_le n hn
  have hLpos := bitLength_pos n hn
  have h1 : ((2 ^ (bitLength n - 1) : Nat) : ℚ) ≤ (n : ℚ) := by exact_mod_cast hL2
  rw [← two_zpow_nat] at h1
  have h2 : (2 : ℚ) ^ (((bitLength n - 1 : Nat) : Int) + E) < (2 : ℚ) ^ (1023 : Int) := by
    rw [two_zpow_add]
    exact lt_of_le_of_lt (mul_le_mul_of_nonneg_right h1 (two_zpow_pos E).le) hsmall
  have h3 := two_zpow_lt_iff.mp h2
  omega

theorem Double.val_finite (m e : Int) : (Double.finite m e).val = (m : ℚ) * (2 : ℚ) ^ e := rfl

theorem signed_natAbs (M : Int) :
    ((if decide (M < 0) = true then -((M.natAbs : Nat) : Int) else (M.natAbs : Nat)) : Int) = M := by
  by_cases h : M < 0
  · simp only [h, decide_True, if_true]
    omega
  · simp only [h, decide_False, Bool.false_eq_true, if_false]
    omega

/-- The result of `roundNearest` on the exact value `M * 2^E`, when it is
finite, is a representable number nearest to that value. -/
theorem roundNearest_rounds (M E : Int)
    (hfin : ∃ m e, roundNearest (decide (M < 0)) M.natAbs E = finite m e) :
    Rounds ((M : ℚ) * (2 : ℚ) ^ E) (roundNearest (decide (M < 0)) M.natAbs E) := by
  refine ⟨hfin, ?_⟩
  by_cases hn : M.natAbs = 0
  · have hM : M = 0 := by omega
    subst hM
    have : roundNearest (decide ((0 : Int) < 0)) (0 : Int).natAbs E = finite 0 0 := by
      simp [roundNearest]
    rw [this]
    simp only [Double.val_finite, Int.cast_zero, zero_mul, sub_zero]
    exact ⟨representable_zero, fun r _ => abs_nonneg _⟩
  · obtain ⟨_, he, hm, hnear⟩ := round_core M.natAbs E hn
    have hno : ¬ 1024 < roundExp M.natAbs E + bitLength (roundMant M.natAbs E) := by
      intro hov
      obtain ⟨m, e, h⟩ := hfin
      unfold roundNearest at h
      rw [if_neg hn, if_pos hov] at h
      exact Double.noConfusion h
    have heq : roundNearest (decide (M < 0)) M.natAbs E
        = finite (if decide (M < 0) = true then -((roundMant M.natAbs E : Nat) : Int)
            else (roundMant M.natAbs E : Nat)) (roundExp M.natAbs E) := by
      unfold roundNearest
      rw [if_neg hn, if_neg hno]
    rw [heq, Double.val_finite]
    have hrepr := representable_of_le _ _ hm he
    by_cases hneg : M < 0
    · simp only [hneg, decide_True, if_true]
      have hMabs : (M : ℚ) = -((M.natAbs : Nat) : ℚ) := by
        have h1 : M = -((M.natAbs : Nat) : Int) := by omega
        have h2 : (M : ℚ) = ((-((M.natAbs : Nat) : Int) : Int) : ℚ) := congrArg Int.cast h1
        rw [Int.cast_neg, Int.cast_natCast] at h2
        exact h2
      constructor
      · have := hrepr.neg
        push_cast
        rw [neg_mul]
        exact this
      · intro r hr
        have := hnear (-r) hr.neg
        rw [hMabs]
        push_cast
        have e1 : -((roundMant M.natAbs E : Nat) : ℚ) * (2 : ℚ) ^ roundExp M.natAbs E
            - -((M.natAbs : Nat) : ℚ) * (2 : ℚ) ^ E
            = -(((roundMant M.natAbs E : Nat) : ℚ) * (2 : ℚ) ^ roundExp M.natAbs E
              - ((M.natAbs : Nat) : ℚ) * (2 : ℚ) ^ E) := by ring
        have e2 : r - -((M.natAbs : Nat) : ℚ) * (2 : ℚ) ^ E
            = -(-r - ((M.natAbs : Nat) : ℚ) * (2 : ℚ) ^ E) := by ring
        rw [e1, e2, abs_neg, abs_neg]
        exact this
    · simp only [hneg, decide_False, Bool.false_eq_true, if_false]
      have hMabs : (M : ℚ) = ((M.natAbs : Nat) : ℚ) := by
        have h1 : M = ((M.natAbs : Nat) : Int) := by omega
        have h2 : (M : ℚ) = ((((M.natAbs : Nat) : Int) : Int) : ℚ) := congrArg Int.cast h1
        rw [Int.cast_natCast] at h2
        exact h2
      constructor
      · exact_mod_cast hrepr
      · intro r hr
        have := hnear r hr
        rw [hMabs]
        exact_mod_cast this

/-- Below `2^1023` in magnitude the rounding never overflows. -/
theorem roundNearest_finite (M E : Int)
    (hsmall : |(M : ℚ)| * (2 : ℚ) ^ E < (2 : ℚ) ^ (1023 : Int)) :
    ∃ m e, roundNearest (decide (M < 0)) M.natAbs E = finite m e := by
  by_cases hn : M.natAbs = 0
  · exact ⟨0, 0, by simp [roundNearest, hn]⟩
  · obtain ⟨hov, _⟩ := round_core M.natAbs E hn
    have habs : |(M : ℚ)| = ((M.natAbs : Nat) : ℚ) := by
      rw [Nat.cast_natAbs, Int.cast_abs]
    rw [habs] at hsmall
    have hLE := bitLength_add_le M.natAbs E hn hsmall
    refine ⟨(if decide (M < 0) = true then -((roundMant M.natAbs E : Nat) : Int)
      else (roundMant M.natAbs E : Nat)), roundExp M.natAbs E, ?_⟩
    unfold roundNearest
    rw [if_neg hn, if_neg (by omega)]

/-! ### Consequences of being a nearest representable number -/

theorem Rounds.val_le {x r : ℚ} {d : Double} (h : Rounds x d) (hr : Representable r)
    (hxr : x ≤ r) : d.val ≤ r := by
  by_contra hc
  push_neg at hc
  have h1 := h.2.2 r hr
  rw [abs_of_nonneg (by linarith), abs_of_nonneg (by linarith)] at h1
  linarith

theorem Rounds.le_val {x r : ℚ} {d : Double} (h : Rounds x d) (hr : Representable r)
    (hrx : r ≤ x) : r ≤ d.val := by
  by_contra hc
  push_neg at hc
  have h1 := h.2.2 r hr
  rw [abs_of_nonpos (by linarith), abs_of_nonpos (by linarith)] at h1
  linarith

theorem Rounds.exact {x : ℚ} {d : Double} (h : Rounds x d) (hr : Representable x) :
    d.val = x :=
  le_antisymm (h.val_le hr le_rfl) (h.le_val hr le_rfl)

theorem Rounds.lt_of_val_lt {x r : ℚ} {d : Double} (h : Rounds x d) (hr : Representable r)
    (hlt : d.val < r) : x < r := by
  by_contra hc
  push_neg at hc
  have := h.le_val hr hc
  linarith

theorem Rounds.gt_of_val_gt {x r : ℚ} {d : Double} (h : Rounds x d) (hr : Representable r)
    (hlt : r < d.val) : r < x := by
  by_contra hc
  push_neg at hc
  have := h.val_le hr hc
  linarith

theorem Rounds.mono_of_lt {x y : ℚ} {d1 d2 : Double} (h1 : Rounds x d1) (h2 : Rounds y d2)
    (hxy : x < y) : d1.val ≤ d2.val := by
  by_contra hc
  push_neg at hc
  have n1 := h1.2.2 d2.val h2.2.1
  have n2 := h2.2.2 d1.val h1.2.1
  have hx : (d1.val + d2.val) / 2 ≤ x := by
    by_contra hx
    push_neg at hx
    rw [abs_of_nonneg (by linarith)] at n1
    have := le_abs_self (d2.val - x)
    have := neg_abs_le (d2.val - x)
    rcases abs_cases (d2.val - x) with ⟨e, _⟩ | ⟨e, _⟩ <;> linarith
  have hy : y ≤ (d1.val + d2.val) / 2 := by
    by_contra hy
    push_neg at hy
    rw [abs_of_nonpos (by linarith)] at n2
    rcases abs_cases (d1.val - y) with ⟨e, _⟩ | ⟨e, _⟩ <;> linarith
  linarith

/-! ### Representable numbers -/

theorem representable_int_mul_zpow (z e : Int) (hz : |z| < 2 ^ 53) (he : -1074 ≤ e) :
    Representable ((z : ℚ) * (2 : ℚ) ^ e) := ⟨z, e, hz, he, rfl⟩

theorem representable_int (z : Int) (hz : |z| < 2 ^ 53) : Representable (z : ℚ) := by
  have := representable_int_mul_zpow z 0 hz (by norm_num)
  simpa using this

/-- A representable number of magnitude at least `2^(k-1)` is a multiple of
`2^(k-53)`. -/
theorem Representable.grid {r : ℚ} (h : Representable r) (k : Int)
    (hk : (2 : ℚ) ^ (k - 1) ≤ |r|) : ∃ j : Int, r = (j : ℚ) * (2 : ℚ) ^ (k - 53) := by
  obtain ⟨m, e, hm, _, hr⟩ := h
  have h1 : |r| < (2 : ℚ) ^ (53 + e) := by
    rw [hr, abs_mul, abs_of_pos (two_zpow_pos e), two_zpow_add]
    apply mul_lt_mul_of_pos_right _ (two_zpow_pos e)
    have : ((|m| : Int) : ℚ) < ((2 ^ 53 : Int) : ℚ) := by exact_mod_cast hm
    push_cast at this
    rw [zpow_ofNat]
    exact this
  have h2 : k - 1 < 53 + e := two_zpow_lt_iff.mp (lt_of_le_of_lt hk h1)
  refine ⟨m * 2 ^ (e - (k - 53)).toNat, ?_⟩
  have e1 : e = ((e - (k - 53)).toNat : Int) + (k - 53) := by omega
  rw [hr]
  nth_rewrite 1 [e1]
  rw [two_zpow_add, two_zpow_nat]
  push_cast
  ring

/-- Below an integer `N`, a representable number of magnitude at least
`2^(k-1)` stays at least one grid step `2^(k-53)` away (`k ≤ 53`). -/
theorem Representable.le_pred {r : ℚ} (h : Representable r) (k : Int) (N : Int)
    (hk53 : k ≤ 53) (hk : (2 : ℚ) ^ (k - 1) ≤ r) (hlt : r < (N : ℚ)) :
    r ≤ (N : ℚ) - (2 : ℚ) ^ (k - 53) := by
  have hr0 : 0 < r := lt_of_lt_of_le (two_zpow_pos _) hk
  obtain ⟨j, hj⟩ := h.grid k (by rwa [abs_of_pos hr0])
  have hg := two_zpow_pos (k - 53)
  have hN : (N : ℚ) = ((N * 2 ^ (53 - k).toNat : Int) : ℚ) * (2 : ℚ) ^ (k - 53) := by
    have e0 : ((N * 2 ^ (53 - k).toNat : Int) : ℚ)
        = (N : ℚ) * (((2 ^ (53 - k).toNat : Nat) : ℚ)) := by push_cast; rfl
    rw [e0, mul_assoc, ← two_zpow_nat, ← two_zpow_add]
    have : ((53 - k).toNat : Int) + (k - 53) = 0 := by omega
    rw [this]
    simp
  rw [hj, hN] at hlt
  have h1 : (j : ℚ) < ((N * 2 ^ (53 - k).toNat : Int) : ℚ) := lt_of_mul_lt_mul_right hlt hg.le
  have h2 : j < N * 2 ^ (53 - k).toNat := by exact_mod_cast h1
  have h3 : j ≤ N * 2 ^ (53 - k).toNat - 1 := by omega
  have h4 : (j : ℚ) ≤ ((N * 2 ^ (53 - k).toNat - 1 : Int) : ℚ) := by exact_mod_cast h3
  have h5 := mul_le_mul_of_nonneg_right h4 hg.le
  rw [hj]
  calc (j : ℚ) * (2 : ℚ) ^ (k - 53)
      ≤ ((N * 2 ^ (53 - k).toNat - 1 : Int) : ℚ) * (2 : ℚ) ^ (k - 53) := h5
    _ = (N : ℚ) - (2 : ℚ) ^ (k - 53) := by
        rw [Int.cast_sub, sub_mul, ← hN]
        simp

/-! ### Truncation toward zero -/

theorem truncQ_of_nonneg {q : ℚ} (h : 0 ≤ q) : truncQ q = ⌊q⌋ := by
  simp [truncQ, h]

theorem truncQ_gt (t : ℚ) : t - 1 < (truncQ t : ℚ) := by
  unfold truncQ
  split
  · have := Int.lt_floor_add_one t
    linarith
  · have := Int.le_ceil t
    linarith

theorem truncQ_lt (t : ℚ) : (truncQ t : ℚ) < t + 1 := by
  unfold truncQ
  split
  · have := Int.floor_le t
    linarith
  · have := Int.ceil_lt_add_one t
    linarith

theorem truncQ_eq_zero {q : ℚ} (h1 : -1 < q) (h2 : q < 1) : truncQ q = 0 := by
  unfold truncQ
  split
  · rw [Int.floor_eq_iff]
    constructor
    · push_cast; assumption
    · push_cast; linarith
  · rw [Int.ceil_eq_iff]
    constructor
    · push_cast; linarith
    · push_cast; linarith

theorem truncQ_intCast (z : Int) : truncQ (z : ℚ) = z := by
  unfold truncQ
  split <;> simp

theorem truncQ_nonneg {q : ℚ} (h : -1 < q) : 0 ≤ truncQ q := by
  unfold truncQ
  split
  · rename_i h0
    exact Int.floor_nonneg.mpr h0
  · rw [Int.le_ceil_iff]
    push_cast
    linarith

theorem truncQ_le_of_nonneg {q : ℚ} (h : 0 ≤ q) : (truncQ q : ℚ) ≤ q := by
  rw [truncQ_of_nonneg h]
  exact Int.floor_le q

/-- `Double.toInt` truncates the value toward zero. -/
theorem Double.toInt_finite (m e : Int) :
    (Double.finite m e).toInt = truncQ (Double.finite m e).val := by
  rw [Double.val_finite]
  show (if 0 ≤ e then m * 2 ^ e.toNat else m.tdiv (2 ^ (-e).toNat)) = _
  by_cases he : 0 ≤ e
  · rw [if_pos he]
    have e1 : e = ((e.toNat : Nat) : Int) := by omega
    have : (m : ℚ) * (2 : ℚ) ^ e = ((m * 2 ^ e.toNat : Int) : ℚ) := by
      nth_rewrite 1 [e1]
      rw [two_zpow_nat]
      push_cast
      rfl
    rw [this, truncQ_intCast]
  · rw [if_neg he]
    have e1 : e = -(((-e).toNat : Nat) : Int) := by omega
    have hval : (m : ℚ) * (2 : ℚ) ^ e = (m : ℚ) / ((2 ^ (-e).toNat : Nat) : ℚ) := by
      nth_rewrite 1 [e1]
      rw [zpow_neg, two_zpow_nat]
      rfl
    have hpos : (0 : ℚ) < ((2 ^ (-e).toNat : Nat) : ℚ) := by positivity
    rw [hval]
    by_cases hm : 0 ≤ m
    · have hq : (0 : ℚ) ≤ (m : ℚ) / ((2 ^ (-e).toNat : Nat) : ℚ) :=
        div_nonneg (by exact_mod_cast hm) hpos.le
      rw [truncQ_of_nonneg hq, Rat.floor_intCast_div_natCast]
      rw [Int.tdiv_eq_ediv hm (by positivity)]
      push_cast
      rfl
    · have hq : ¬ (0 : ℚ) ≤ (m : ℚ) / ((2 ^ (-e).toNat : Nat) : ℚ) := by
        push_neg
        apply div_neg_of_neg_of_pos _ hpos
        have : m < 0 := by omega
        exact_mod_cast this
      unfold truncQ
      rw [if_neg hq]
      have hneg : (m : ℚ) / ((2 ^ (-e).toNat : Nat) : ℚ)
          = -(((-m : Int) : ℚ) / ((2 ^ (-e).toNat : Nat) : ℚ)) := by
        push_cast
        ring
      rw [hneg, Int.ceil_neg, Rat.floor_intCast_div_natCast]
      have h1 : m.tdiv (2 ^ (-e).toNat) = -((-m).tdiv (2 ^ (-e).toNat)) := by
        rw [Int.neg_tdiv, neg_neg]
      rw [h1, Int.tdiv_eq_ediv (by omega) (by positivity)]
      push_cast
      rfl

/-! ### The arithmetic operations round the exact result -/

theorem two_pow_53_lt : (2 : ℚ) ^ (53 : Int) < (2 : ℚ) ^ (1023 : Int) :=
  two_zpow_lt_iff.mpr (by norm_num)

theorem Double.toInt_eq_truncQ {d : Double} (h : ∃ m e, d = Double.finite m e) :
    d.toInt = truncQ d.val := by
  obtain ⟨m, e, rfl⟩ := h
  exact Double.toInt_finite m e

theorem Double.ofInt_spec (z : Int) (hz : |z| < 2 ^ 53) :
    (∃ m e, Double.ofInt z = Double.finite m e) ∧ (Double.ofInt z).val = (z : ℚ) := by
  have hsmall : |(z : ℚ)| * (2 : ℚ) ^ (0 : Int) < (2 : ℚ) ^ (1023 : Int) := by
    have h1 : |(z : ℚ)| < (2 : ℚ) ^ (53 : Int) := by
      have : ((|z| : Int) : ℚ) < ((2 ^ 53 : Int) : ℚ) := by exact_mod_cast hz
      push_cast at this
      rw [zpow_ofNat]
      exact this
    rw [zpow_zero, mul_one]
    exact lt_trans h1 two_pow_53_lt
  have hfin := roundNearest_finite z 0 hsmall
  have hr := roundNearest_rounds z 0 hfin
  rw [zpow_zero, mul_one] at hr
  exact ⟨hfin, hr.exact (representable_int z hz)⟩

theorem Double.mul_rounds {a b : Double} (ha : ∃ m e, a = Double.finite m e)
    (hb : ∃ m e, b = Double.finite m e)
    (h : ∃ m e, Double.mul a b = Double.finite m e) :
    Rounds (a.val * b.val) (Double.mul a b) := by
  obtain ⟨m1, e1, rfl⟩ := ha
  obtain ⟨m2, e2, rfl⟩ := hb
  have hr := roundNearest_rounds (m1 * m2) (e1 + e2) h
  have e : ((m1 * m2 : Int) : ℚ) * (2 : ℚ) ^ (e1 + e2)
      = (Double.finite m1 e1).val * (Double.finite m2 e2).val := by
    rw [Double.val_finite, Double.val_finite, two_zpow_add]
    push_cast
    ring
  rw [e] at hr
  exact hr

theorem Double.mul_rounds_small {a b : Double} (ha : ∃ m e, a = Double.finite m e)
    (hb : ∃ m e, b = Double.finite m e)
    (hs : |a.val * b.val| < (2 : ℚ) ^ (1023 : Int)) :
    Rounds (a.val * b.val) (Double.mul a b) := by
  apply Double.mul_rounds ha hb
  obtain ⟨m1, e1, rfl⟩ := ha
  obtain ⟨m2, e2, rfl⟩ := hb
  apply roundNearest_finite (m1 * m2) (e1 + e2)
  have e : |((m1 * m2 : Int) : ℚ)| * (2 : ℚ) ^ (e1 + e2)
      = |(Double.finite m1 e1).val * (Double.finite m2 e2).val| := by
    rw [Double.val_finite, Double.val_finite, two_zpow_add, abs_mul, abs_mul, abs_mul,
      abs_of_pos (two_zpow_pos e1), abs_of_pos (two_zpow_pos e2)]
    push_cast
    rw [abs_mul]
    ring
  rw [e]
  exact hs

theorem Double.sub_exact (m1 e1 m2 e2 : Int) :
    ((m1 * 2 ^ (e1 - min e1 e2).toNat - m2 * 2 ^ (e2 - min e1 e2).toNat : Int) : ℚ)
        * (2 : ℚ) ^ (min e1 e2)
      = (Double.finite m1 e1).val - (Double.finite m2 e2).val := by
  rw [Double.val_finite, Double.val_finite]
  have h1 : e1 = ((e1 - min e1 e2).toNat : Int) + min e1 e2 := by omega
  have h2 : e2 = ((e2 - min e1 e2).toNat : Int) + min e1 e2 := by omega
  have p1 : (2 : ℚ) ^ e1 = ((2 ^ (e1 - min e1 e2).toNat : Nat) : ℚ) * (2 : ℚ) ^ (min e1 e2) := by
    nth_rewrite 1 [h1]
    rw [two_zpow_add, two_zpow_nat]
  have p2 : (2 : ℚ) ^ e2 = ((2 ^ (e2 - min e1 e2).toNat : Nat) : ℚ) * (2 : ℚ) ^ (min e1 e2) := by
    nth_rewrite 1 [h2]
    rw [two_zpow_add, two_zpow_nat]
  rw [p1, p2]
  push_cast
  ring

theorem Double.sub_rounds_small {a b : Double} (ha : ∃ m e, a = Double.finite m e)
    (hb : ∃ m e, b = Double.finite m e)
    (hs : |a.val - b.val| < (2 : ℚ) ^ (1023 : Int)) :
    Rounds (a.val - b.val) (Double.sub a b) := by
  obtain ⟨m1, e1, rfl⟩ := ha
  obtain ⟨m2, e2, rfl⟩ := hb
  have hx := Double.sub_exact m1 e1 m2 e2
  have hfin := roundNearest_finite
    (m1 * 2 ^ (e1 - min e1 e2).toNat - m2 * 2 ^ (e2 - min e1 e2).toNat) (min e1 e2)
    (by rw [← abs_of_pos (two_zpow_pos (min e1 e2)), ← abs_mul, hx]; exact hs)
  have hr := roundNearest_rounds _ _ hfin
  rw [hx] at hr
  exact hr

theorem Double.divTwo_rounds_small {a : Double} (ha : ∃ m e, a = Double.finite m e)
    (hs : |a.val / 2| < (2 : ℚ) ^ (1023 : Int)) :
    Rounds (a.val / 2) (Double.divTwo a) := by
  obtain ⟨m, e, rfl⟩ := ha
  have hx : (m : ℚ) * (2 : ℚ) ^ (e - 1) = (Double.finite m e).val / 2 := by
    rw [Double.val_finite, sub_eq_add_neg, two_zpow_add]
    rw [zpow_neg, zpow_one]
    ring
  have hfin := roundNearest_finite m (e - 1)
    (by rw [← abs_of_pos (two_zpow_pos (e - 1)), ← abs_mul, hx]; exact hs)
  have hr := roundNearest_rounds _ _ hfin
  rw [hx] at hr
  exact hr

/-! ### No rounding up to the next integer -/

theorem two_zpow_le_one {e : Int} (h : e ≤ 0) : (2 : ℚ) ^ e ≤ 1 := by
  have := two_zpow_le h
  rwa [zpow_zero] at this

theorem int_abs_lt_two_pow_53 (z : Int) (h0 : 0 ≤ z) (h1 : z ≤ 2 ^ 33) : |z| < 2 ^ 53 := by
  rw [abs_of_nonneg h0]
  have : (2 : Int) ^ 33 < 2 ^ 53 := by norm_num
  omega

/-- With `x > M`, `fl(x + y) < M + N` for integers `M ≥ 0`, `N ≥ 2`, the
rounded `y` stays strictly below `N`. -/
theorem rounds_lt_of_sum {x y : ℚ} {dz dy : Double} (M N : Int)
    (hz : Rounds (x + y) dz) (hy : Rounds y dy)
    (hM : 0 ≤ M) (hN : 2 ≤ N) (hMN : M + N ≤ 2 ^ 32)
    (hx : (M : ℚ) < x) (hzlt : dz.val < ((M + N : Int) : ℚ)) :
    dy.val < (N : ℚ) := by
  by_contra hge
  push_neg at hge
  -- the binade of N
  have hN1 : (N - 1).toNat ≠ 0 := by omega
  have hb1 := bitLength_lt (N - 1).toNat
  have hb2 := bitLength_le (N - 1).toNat hN1
  have hb3 := bitLength_pos (N - 1).toNat hN1
  have hb4 : bitLength (N - 1).toNat ≤ 32 := by
    apply bitLength_le_of_lt
    have : (N - 1).toNat < 2 ^ 32 := by
      have h32 : ((2 : Int) ^ 32) = (((2 : Nat) ^ 32 : Nat) : Int) := by norm_num
      omega
    exact this
  obtain ⟨kn, hkn⟩ : ∃ kn : Nat, bitLength (N - 1).toNat = kn := ⟨_, rfl⟩
  rw [hkn] at hb1 hb2 hb3 hb4
  -- facts about N in ℚ
  have hNle : (N : ℚ) ≤ (2 : ℚ) ^ (kn : Int) := by
    rw [two_zpow_nat]
    have : N ≤ ((2 ^ kn : Nat) : Int) := by omega
    exact_mod_cast this
  have hNge : (2 : ℚ) ^ ((kn : Int) - 1) + 1 ≤ (N : ℚ) := by
    have e1 : ((kn : Int) - 1) = ((kn - 1 : Nat) : Int) := by omega
    rw [e1, two_zpow_nat]
    have : ((2 ^ (kn - 1) : Nat) : Int) + 1 ≤ N := by omega
    exact_mod_cast this
  have hg := two_zpow_pos ((kn : Int) - 53)
  have hg1 : (2 : ℚ) ^ ((kn : Int) - 53) ≤ 1 := two_zpow_le_one (by omega)
  have hh : (2 : ℚ) ^ ((kn : Int) - 54) * 2 = (2 : ℚ) ^ ((kn : Int) - 53) := by
    have : (kn : Int) - 53 = ((kn : Int) - 54) + 1 := by omega
    rw [this, two_zpow_add, zpow_one]
  have hhpos := two_zpow_pos ((kn : Int) - 54)
  -- the representable just below N
  have hpred : Representable ((N : ℚ) - (2 : ℚ) ^ ((kn : Int) - 53)) := by
    have e0 : (N : ℚ) - (2 : ℚ) ^ ((kn : Int) - 53)
        = ((N * 2 ^ (53 - kn) - 1 : Int) : ℚ) * (2 : ℚ) ^ ((kn : Int) - 53) := by
      have e1 : ((N * 2 ^ (53 - kn) - 1 : Int) : ℚ)
          = (N : ℚ) * ((2 ^ (53 - kn) : Nat) : ℚ) - 1 := by push_cast; rfl
      rw [e1, sub_mul, mul_assoc, ← two_zpow_nat, ← two_zpow_add]
      have : (((53 - kn : Nat)) : Int) + ((kn : Int) - 53) = 0 := by omega
      rw [this]
      simp
    rw [e0]
    apply representable_int_mul_zpow _ _ _ (by omega)
    have hle : N * 2 ^ (53 - kn) ≤ 2 ^ 53 := by
      have h1 : N ≤ 2 ^ kn := by
        have : N ≤ ((2 ^ kn : Nat) : Int) := by omega
        exact_mod_cast this
      calc N * 2 ^ (53 - kn) ≤ 2 ^ kn * 2 ^ (53 - kn) :=
            mul_le_mul_of_nonneg_right h1 (by positivity)
        _ = 2 ^ 53 := by
            rw [← pow_add]
            congr 1
            omega
    have hge0 : 0 ≤ N * 2 ^ (53 - kn) - 1 := by
      have : (1 : Int) ≤ N * 2 ^ (53 - kn) := by
        have h2 : (1 : Int) ≤ 2 ^ (53 - kn) := one_le_pow₀ (by norm_num)
        nlinarith
      omega
    rw [abs_of_nonneg hge0]
    omega
  -- step 1: y is within half a grid step of N
  have hy1 : (N : ℚ) - (2 : ℚ) ^ ((kn : Int) - 54) ≤ y := by
    by_contra hc
    push_neg at hc
    by_cases hyr : (N : ℚ) - (2 : ℚ) ^ ((kn : Int) - 53) ≤ y
    · have hn := hy.2.2 _ hpred
      rw [abs_of_nonneg (by linarith), abs_of_nonpos (by linarith)] at hn
      linarith
    · push_neg at hyr
      have := hy.val_le hpred hyr.le
      linarith
  -- step 2: the rounded sum is within a grid step of M + N
  have hMNrep : Representable (((M + N : Int)) : ℚ) :=
    representable_int _ (int_abs_lt_two_pow_53 _ (by omega) (by
      have : (2 : Int) ^ 32 ≤ 2 ^ 33 := by norm_num
      omega))
  have hsum := hz.lt_of_val_lt hMNrep hzlt
  have hn := hz.2.2 _ hMNrep
  rw [abs_of_nonneg (a := ((M + N : Int) : ℚ) - (x + y)) (by linarith)] at hn
  have hcast : ((M + N : Int) : ℚ) = (M : ℚ) + (N : ℚ) := by push_cast; rfl
  have hzgt : ((M + N : Int) : ℚ) - (2 : ℚ) ^ ((kn : Int) - 53) < dz.val := by
    have := neg_abs_le (dz.val - (x + y))
    rw [hcast] at hn ⊢
    linarith
  -- step 3: but the rounded sum lies on the grid of the binade of N
  have hM0 : (0 : ℚ) ≤ (M : ℚ) := by exact_mod_cast hM
  have hzge : (2 : ℚ) ^ ((kn : Int) - 1) ≤ dz.val := by
    rw [hcast] at hzgt
    linarith
  have := hz.2.1.le_pred (kn : Int) (M + N) (by omega) hzge hzlt
  linarith

theorem truncQ_le_int {q : ℚ} {z : Int} (h : q ≤ (z : ℚ)) : truncQ q ≤ z := by
  have h1 := truncQ_lt q
  have h2 : (truncQ q : ℚ) < ((z + 1 : Int) : ℚ) := by
    push_cast
    linarith
  have h3 : truncQ q < z + 1 := by exact_mod_cast h2
  omega

theorem truncQ_le_self_of_pos {q : ℚ} (h : 1 ≤ truncQ q) : (truncQ q : ℚ) ≤ q := by
  by_cases hq : 0 ≤ q
  · exact truncQ_le_of_nonneg hq
  · exfalso
    push_neg at hq
    have : truncQ q ≤ 0 := by
      apply truncQ_le_int
      push_cast
      exact hq.le
    omega

theorem representable_half_int (z : Int) (hz : |z| < 2 ^ 53) :
    Representable ((z : ℚ) / 2) := by
  have := representable_int_mul_zpow z (-1) hz (by norm_num)
  rw [zpow_neg, zpow_one] at this
  exact this

theorem representable_neg_one_add : Representable ((-1 : ℚ) + (2 : ℚ) ^ (-53 : Int)) := by
  have e : (-1 : ℚ) + (2 : ℚ) ^ (-53 : Int)
      = ((-(2 ^ 53 - 1) : Int) : ℚ) * (2 : ℚ) ^ (-53 : Int) := by norm_num
  rw [e]
  exact representable_int_mul_zpow _ _ (by norm_num) (by norm_num)

theorem representable_neg_two_add : Representable ((-2 : ℚ) + (2 : ℚ) ^ (-52 : Int)) := by
  have e : (-2 : ℚ) + (2 : ℚ) ^ (-52 : Int)
      = ((-(2 ^ 53 - 1) : Int) : ℚ) * (2 : ℚ) ^ (-52 : Int) := by norm_num
  rw [e]
  exact representable_int_mul_zpow _ _ (by norm_num) (by norm_num)

/-- The layout arithmetic of `CompositeImages` on its double operands: with
`K` the truncated rounded width, `J` the truncated rounded remaining space
and `D = J - fl(p * s)`, the halved `D` truncates to zero. -/
theorem layout_core (s : Double) (a p : Int)
    (hsf : ∃ m e, s = Double.finite m e) (hσ : 0 < s.val)
    (ha : 0 ≤ a) (hp : 0 ≤ p) (hW : a + p < 2 ^ 31)
    (hΩf : ∃ m e, Double.mul (Double.ofInt (a + p)) s = Double.finite m e)
    (hK : (Double.mul (Double.ofInt (a + p)) s).toInt < 2 ^ 31) :
    (∃ m e, Double.sub
        (Double.ofInt (Double.sub
          (Double.ofInt (Double.mul (Double.ofInt (a + p)) s).toInt)
          (Double.mul (Double.ofInt a) s)).toInt)
        (Double.mul (Double.ofInt p) s) = Double.finite m e) ∧
    -2 < (Double.sub
        (Double.ofInt (Double.sub
          (Double.ofInt (Double.mul (Double.ofInt (a + p)) s).toInt)
          (Double.mul (Double.ofInt a) s)).toInt)
        (Double.mul (Double.ofInt p) s)).val ∧
    (Double.sub
        (Double.ofInt (Double.sub
          (Double.ofInt (Double.mul (Double.ofInt (a + p)) s).toInt)
          (Double.mul (Double.ofInt a) s)).toInt)
        (Double.mul (Double.ofInt p) s)).val ≤ 1 ∧
    (Double.divTwo (Double.sub
        (Double.ofInt (Double.sub
          (Double.ofInt (Double.mul (Double.ofInt (a + p)) s).toInt)
          (Double.mul (Double.ofInt a) s)).toInt)
        (Double.mul (Double.ofInt p) s))).toInt = 0 := by
  have h31 : (2 : Int) ^ 31 < 2 ^ 33 := by norm_num
  have h31q : ((2 : ℚ) ^ (31 : Nat)) < (2 : ℚ) ^ (1023 : Int) := by
    rw [← zpow_natCast]
    exact two_zpow_lt_iff.mpr (by norm_num)
  have haq : (0 : ℚ) ≤ (a : ℚ) := by exact_mod_cast ha
  have hpq : (0 : ℚ) ≤ (p : ℚ) := by exact_mod_cast hp
  -- the three products
  obtain ⟨hWf, hWv⟩ := Double.ofInt_spec (a + p) (int_abs_lt_two_pow_53 _ (by omega) (by omega))
  obtain ⟨haf, hav⟩ := Double.ofInt_spec a (int_abs_lt_two_pow_53 _ ha (by omega))
  obtain ⟨hpf, hpv⟩ := Double.ofInt_spec p (int_abs_lt_two_pow_53 _ hp (by omega))
  have RΩ := Double.mul_rounds hWf hsf hΩf
  rw [hWv] at RΩ
  generalize hΩ : Double.mul (Double.ofInt (a + p)) s = Ω at *
  have hKq := Double.toInt_eq_truncQ hΩf
  have hcastW : ((a + p : Int) : ℚ) = (a : ℚ) + (p : ℚ) := by push_cast; rfl
  have hWσ0 : (0 : ℚ) ≤ ((a + p : Int) : ℚ) * s.val := by
    rw [hcastW]
    positivity
  have hΩ0 : 0 ≤ Ω.val := RΩ.le_val representable_zero hWσ0
  generalize hKK : Ω.toInt = K at *
  have hK0 : 0 ≤ K := by
    rw [hKq]
    exact truncQ_nonneg (by linarith)
  have hKle : (K : ℚ) ≤ Ω.val := by
    rw [hKq]
    exact truncQ_le_of_nonneg hΩ0
  have hKlt : Ω.val < (K : ℚ) + 1 := by
    have := truncQ_gt Ω.val
    rw [← hKq] at this
    linarith
  have hK1rep : Representable (((K + 1 : Int)) : ℚ) :=
    representable_int _ (int_abs_lt_two_pow_53 _ (by omega) (by omega))
  have hcastK1 : ((K + 1 : Int) : ℚ) = (K : ℚ) + 1 := by push_cast; rfl
  have hWσ : ((a + p : Int) : ℚ) * s.val < (K : ℚ) + 1 := by
    have := RΩ.lt_of_val_lt hK1rep (by rw [hcastK1]; exact hKlt)
    rwa [hcastK1] at this
  have hKq31 : (K : ℚ) + 1 ≤ (2 : ℚ) ^ (31 : Nat) := by
    have : K + 1 ≤ 2 ^ 31 := by omega
    have h2 : ((K + 1 : Int) : ℚ) ≤ ((2 ^ 31 : Int) : ℚ) := by exact_mod_cast this
    push_cast at h2
    exact h2
  have haσ0 : 0 ≤ (a : ℚ) * s.val := by positivity
  have hpσ0 : 0 ≤ (p : ℚ) * s.val := by positivity
  have hsum : ((a + p : Int) : ℚ) * s.val = (a : ℚ) * s.val + (p : ℚ) * s.val := by
    rw [hcastW]
    ring
  have RA : Rounds ((a : ℚ) * s.val) (Double.mul (Double.ofInt a) s) := by
    have := Double.mul_rounds_small haf hsf (by
      rw [hav, abs_of_nonneg haσ0]
      linarith)
    rwa [hav] at this
  have RP : Rounds ((p : ℚ) * s.val) (Double.mul (Double.ofInt p) s) := by
    have := Double.mul_rounds_small hpf hsf (by
      rw [hpv, abs_of_nonneg hpσ0]
      linarith)
    rwa [hpv] at this
  have hAΩ : (Double.mul (Double.ofInt a) s).val ≤ Ω.val := by
    by_cases hp0 : p = 0
    · subst hp0
      rw [add_zero] at hΩ
      rw [hΩ]
    · have hppos : (0 : ℚ) < (p : ℚ) := by
        have : 0 < p := by omega
        exact_mod_cast this
      apply RA.mono_of_lt RΩ
      rw [hsum]
      have := mul_pos hppos hσ
      linarith
  generalize hA : Double.mul (Double.ofInt a) s = A at *
  generalize hP : Double.mul (Double.ofInt p) s = P at *
  have hA0 : 0 ≤ A.val := RA.le_val representable_zero haσ0
  have hP0 : 0 ≤ P.val := RP.le_val representable_zero hpσ0
  -- the remaining space
  obtain ⟨hKf, hKv⟩ := Double.ofInt_spec K (int_abs_lt_two_pow_53 _ hK0 (by omega))
  have hKq' : (K : ℚ) < (2 : ℚ) ^ (31 : Nat) := by linarith
  have Rt : Rounds ((K : ℚ) - A.val) (Double.sub (Double.ofInt K) A) := by
    have := Double.sub_rounds_small hKf RA.1 (by
      rw [hKv, abs_lt]
      constructor <;> linarith)
    rwa [hKv] at this
  generalize ht : Double.sub (Double.ofInt K) A = t at *
  have ht1 : -1 < t.val := by
    by_cases hAh : A.val < 1 / 2
    · have hr : Representable ((-1 : Int) / 2 : ℚ) := by
        have := representable_half_int (-1) (by norm_num)
        exact_mod_cast this
      have hKq0 : (0 : ℚ) ≤ (K : ℚ) := by exact_mod_cast hK0
      have := Rt.le_val hr (by
        push_cast
        linarith)
      push_cast at this
      linarith
    · push_neg at hAh
      have h1 := RA.2.1.le_pred 0 (K + 1) (by norm_num) (by
        rw [zero_sub, zpow_neg, zpow_one]
        linarith) (by rw [hcastK1]; linarith)
      rw [hcastK1] at h1
      have e53 : (2 : ℚ) ^ ((0 : Int) - 53) = (2 : ℚ) ^ (-53 : Int) := by norm_num
      rw [e53] at h1
      have := Rt.le_val representable_neg_one_add (by linarith)
      have hpos := two_zpow_pos (-53)
      linarith
  have hKrep : Representable (K : ℚ) :=
    representable_int _ (int_abs_lt_two_pow_53 _ hK0 (by omega))
  have ht2 : t.val ≤ (K : ℚ) := Rt.val_le hKrep (by linarith)
  have hJq := Double.toInt_eq_truncQ Rt.1
  generalize hJJ : t.toInt = J at *
  have hJ0 : 0 ≤ J := by
    rw [hJq]
    exact truncQ_nonneg ht1
  have hJK : J ≤ K := by
    rw [hJq]
    exact truncQ_le_int ht2
  have hJgt : t.val - 1 < (J : ℚ) := by
    rw [hJq]
    exact truncQ_gt _
  have hJq0 : (0 : ℚ) ≤ (J : ℚ) := by exact_mod_cast hJ0
  have hJKq : (J : ℚ) ≤ (K : ℚ) := by exact_mod_cast hJK
  -- upper bound
  have hU : (J : ℚ) - P.val ≤ 1 := by
    by_cases hJ1 : J ≤ 1
    · have : (J : ℚ) ≤ 1 := by exact_mod_cast hJ1
      linarith
    · have hJt : (J : ℚ) ≤ t.val := by
        rw [hJq]
        apply truncQ_le_self_of_pos
        rw [← hJq]
        omega
      have hr1 : Representable (((2 * J - 1 : Int) : ℚ) / 2) :=
        representable_half_int _ (int_abs_lt_two_pow_53 _ (by omega) (by omega))
      have h1 : ((2 * J - 1 : Int) : ℚ) / 2 < (K : ℚ) - A.val := by
        by_contra hc
        push_neg at hc
        have := Rt.val_le hr1 hc
        push_cast at this
        linarith
      have hr2 : Representable (((2 * (K - J) + 1 : Int) : ℚ) / 2) :=
        representable_half_int _ (int_abs_lt_two_pow_53 _ (by omega) (by omega))
      have h2 : (a : ℚ) * s.val < ((2 * (K - J) + 1 : Int) : ℚ) / 2 := by
        apply RA.lt_of_val_lt hr2
        push_cast at h1 ⊢
        linarith
      have hr3 : Representable (((2 * K - 1 : Int) : ℚ) / 2) :=
        representable_half_int _ (int_abs_lt_two_pow_53 _ (by omega) (by omega))
      have h3 : ((2 * K - 1 : Int) : ℚ) / 2 < ((a + p : Int) : ℚ) * s.val := by
        by_contra hc
        push_neg at hc
        have := RΩ.val_le hr3 hc
        push_cast at this
        linarith
      have hr4 : Representable (((J - 1 : Int)) : ℚ) :=
        representable_int _ (int_abs_lt_two_pow_53 _ (by omega) (by omega))
      have hsum2 : ((a : ℚ) + (p : ℚ)) * s.val = (a : ℚ) * s.val + (p : ℚ) * s.val := by ring
      have h4 := RP.le_val hr4 (by
        push_cast at h2 h3 ⊢
        linarith)
      push_cast at h4
      linarith
  -- lower bound
  have hPlt : P.val < (J : ℚ) + 2 := by
    by_cases hJeq : J = K
    · have hr : Representable (((J + 1 : Int)) : ℚ) :=
        representable_int _ (int_abs_lt_two_pow_53 _ (by omega) (by omega))
      have := RP.val_le hr (by
        push_cast
        rw [hJeq]
        rw [hsum] at hWσ
        linarith)
      push_cast at this
      linarith
    · have hr1 : Representable (((J + 1 : Int)) : ℚ) :=
        representable_int _ (int_abs_lt_two_pow_53 _ (by omega) (by omega))
      have h1 := Rt.lt_of_val_lt hr1 (by
        push_cast
        linarith)
      push_cast at h1
      have hr2 : Representable (((K - J - 1 : Int)) : ℚ) :=
        representable_int _ (int_abs_lt_two_pow_53 _ (by omega) (by omega))
      have h2 := RA.gt_of_val_gt hr2 (by
        push_cast
        linarith)
      rw [hsum] at RΩ
      have h3 := rounds_lt_of_sum (K - J - 1) (J + 2) RΩ RP (by omega) (by omega)
        (by
          have : (2 : Int) ^ 31 ≤ 2 ^ 32 := by norm_num
          omega)
        h2 (by
          have : (K - J - 1 + (J + 2) : Int) = K + 1 := by ring
          rw [this, hcastK1]
          exact hKlt)
      push_cast at h3
      exact h3
  have hL : (-2 : ℚ) + (2 : ℚ) ^ (-52 : Int) ≤ (J : ℚ) - P.val := by
    have hpos := two_zpow_pos (-52)
    have hle1 : (2 : ℚ) ^ (-52 : Int) ≤ 1 := two_zpow_le_one (by norm_num)
    by_cases hP1 : P.val < 1
    · linarith
    · push_neg at hP1
      have h1 := RP.2.1.le_pred 1 (J + 2) (by norm_num) (by
        rw [sub_self, zpow_zero]
        exact hP1) (by
        push_cast
        exact hPlt)
      have e52 : (2 : ℚ) ^ ((1 : Int) - 53) = (2 : ℚ) ^ (-52 : Int) := by norm_num
      rw [e52] at h1
      push_cast at h1
      linarith
  -- the difference and its half
  obtain ⟨hJf, hJv⟩ := Double.ofInt_spec J (int_abs_lt_two_pow_53 _ hJ0 (by omega))
  have hbig : (2 : ℚ) ^ (31 : Nat) + 2 < (2 : ℚ) ^ (1023 : Int) := by
    have h1 : (2 : ℚ) ^ (31 : Nat) + 2 ≤ (2 : ℚ) ^ (32 : Nat) := by norm_num
    have h2 : ((2 : ℚ) ^ (32 : Nat)) < (2 : ℚ) ^ (1023 : Int) := by
      rw [← zpow_natCast]
      exact two_zpow_lt_iff.mpr (by norm_num)
    linarith
  have RD : Rounds ((J : ℚ) - P.val) (Double.sub (Double.ofInt J) P) := by
    have := Double.sub_rounds_small hJf RP.1 (by
      rw [hJv, abs_lt]
      constructor <;> linarith)
    rwa [hJv] at this
  generalize hD : Double.sub (Double.ofInt J) P = D at *
  have hD1 : D.val ≤ 1 := by
    have := RD.val_le (representable_int 1 (by norm_num)) (by
      push_cast
      exact hU)
    push_cast at this
    exact this
  have hD2 : (-2 : ℚ) + (2 : ℚ) ^ (-52 : Int) ≤ D.val :=
    RD.le_val representable_neg_two_add hL
  have hpos52 := two_zpow_pos (-52)
  have RH : Rounds (D.val / 2) (Double.divTwo D) :=
    Double.divTwo_rounds_small RD.1 (by
      rw [abs_lt]
      constructor <;> linarith)
  have hH1 : (Double.divTwo D).val ≤ 1 / 2 := by
    have hr : Representable (((1 : Int) : ℚ) / 2) := representable_half_int 1 (by norm_num)
    have := RH.val_le hr (by
      push_cast
      linarith)
    push_cast at this
    exact this
  have hH2 : (-1 : ℚ) + (2 : ℚ) ^ (-53 : Int) ≤ (Double.divTwo D).val := by
    apply RH.le_val representable_neg_one_add
    have e : ((-2 : ℚ) + (2 : ℚ) ^ (-52 : Int)) / 2 = -1 + (2 : ℚ) ^ (-53 : Int) := by norm_num
    rw [← e]
    exact (div_le_div_iff_of_pos_right (by norm_num : (0 : ℚ) < 2)).mpr hD2
  have hpos53 := two_zpow_pos (-53)
  refine ⟨RD.1, by linarith, hD1, ?_⟩
  rw [Double.toInt_eq_truncQ RH.1]
  exact truncQ_eq_zero (by linarith) (by linarith)

/-! ## Scale guard -/

theorem Double.ofInt_zero : Double.ofInt 0 = Double.finite 0 0 := by decide

theorem Double.le_zero_false_iff (d : Double) (hd : d ≠ Double.nan) :
    Double.le d (Double.ofInt 0) = false ↔ Double.lt (Double.ofInt 0) d = true := by
  rw [Double.ofInt_zero]
  cases d with
  | finite m e =>
    simp only [Double.le, Double.lt, min_comm e 0, zero_mul, decide_eq_false_iff_not, not_le,
      decide_eq_true_eq]
  | inf s => cases s <;> simp [Double.le, Double.lt]
  | nan => exact absurd rfl hd

/-- C1 (counterexample): with NaN stored, `checkScaleFactor` returns true
although the stored value is not strictly positive (`0 < NaN` is false, and
so is `NaN <= 0`). -/
theorem checkScaleFactor_nan :
    checkScaleFactor (UpdateScaleFactor Globals.initial Double.nan) = true ∧
    Double.lt (Double.ofInt 0) Double.nan = false ∧
    Double.le Double.nan (Double.ofInt 0) = false := by
  decide

/-- C1 (amended): with a stored scale factor `s <= 0` (the initial state
included), `getCursor`, `getIcon` and `getGlobal` return the empty string with
an empty effect trace, so before any path resolution, directory creation,
candidate loading or file write; for every stored value other than NaN
`checkScaleFactor` is true exactly when the value is strictly positive; and
`UpdateScaleFactor` stores its argument as it is. -/
theorem scale_guard (env : Env) (g : Globals) (id descFile gtkTheme : String) (theme : Theme) :
    (Double.le (getScaleFactor g) (Double.ofInt 0) = true →
      getCursor env g id descFile = ("", []) ∧
      getIcon env g id descFile = ("", []) ∧
      getGlobal env g id theme gtkTheme = ("", [])) ∧
    (getCursor env Globals.initial id descFile = ("", []) ∧
      getIcon env Globals.initial id descFile = ("", []) ∧
      getGlobal env Globals.initial id theme gtkTheme = ("", [])) ∧
    (getScaleFactor g ≠ Double.nan →
      (checkScaleFactor g = true ↔ Double.lt (Double.ofInt 0) (getScaleFactor g) = true)) ∧
    (∀ s : Double, getScaleFactor (UpdateScaleFactor g s) = s) := by
  have key : ∀ g' : Globals, Double.le (getScaleFactor g') (Double.ofInt 0) = true →
      getCursor env g' id descFile = ("", []) ∧
      getIcon env g' id descFile = ("", []) ∧
      getGlobal env g' id theme gtkTheme = ("", []) := by
    intro g' h
    have hc : checkScaleFactor g' = false := by simp [checkScaleFactor, h]
    simp [getCursor, getIcon, getGlobal, hc]
  refine ⟨key g, key Globals.initial (by decide), ?_, ?_⟩
  · intro hnan
    rw [← Double.le_zero_false_iff _ hnan]
    simp [checkScaleFactor]
  · intro s
    rfl

theorem scale_guard_witness :
    Double.le (getScaleFactor (UpdateScaleFactor Globals.initial (Double.ofInt (-2))))
      (Double.ofInt 0) = true ∧
    getCursor bareEnv (UpdateScaleFactor Globals.initial (Double.ofInt (-2))) "t"
      "/t/cursor.theme" = ("", []) :=
  ⟨by decide,
   ((scale_guard bareEnv (UpdateScaleFactor Globals.initial (Double.ofInt (-2))) "t"
      "/t/cursor.theme" "deepin" ⟨"a.png,b.png", "/t"⟩).1 (by decide)).1⟩

/-! ## Staleness -/

/-- C7: `shouldGenerateNew source cached` is true when nothing exists at
`cached`; otherwise, with `d` the parent directory of `source` when `source`
is a regular file and `source` itself when not, it is true exactly when `d`
was modified strictly later than `cached` (equal times give false). -/
theorem shouldGenerateNew_spec (env : Env) (source cached : String) :
    (env.fileExists cached = false → (shouldGenerateNew env source cached).1 = true) ∧
    (env.fileExists cached = true →
      ((shouldGenerateNew env source cached).1 = true ↔
        env.lastModified cached <
          env.lastModified (if env.isFile source then env.dirAbsolutePath source else source))) ∧
    (env.fileExists cached = true →
      env.lastModified (if env.isFile source then env.dirAbsolutePath source else source)
        = env.lastModified cached →
      (shouldGenerateNew env source cached).1 = false) := by
  refine ⟨?_, ?_, ?_⟩
  · intro h
    simp [shouldGenerateNew, h]
  · intro h
    simp [shouldGenerateNew, h]
  · intro h heq
    simp [shouldGenerateNew, h, heq]

theorem shouldGenerateNew_spec_witness :
    staleEnv.fileExists "/c/x.png" = true ∧
    ((shouldGenerateNew staleEnv "/t/index.theme" "/c/x.png").1 = true ↔
      staleEnv.lastModified "/c/x.png" <
        staleEnv.lastModified
          (if staleEnv.isFile "/t/index.theme" then staleEnv.dirAbsolutePath "/t/index.theme"
           else "/t/index.theme")) :=
  ⟨rfl, (shouldGenerateNew_spec staleEnv "/t/index.theme" "/c/x.png").2.1 rfl⟩

/-! ## Compositor: canvas size -/

theorem Double.fitsInt_spec {d : Double} (h : d.fitsInt = true) :
    (∃ m e, d = Double.finite m e) ∧ -(2 : Int) ^ 31 ≤ d.toInt ∧ d.toInt < 2 ^ 31 := by
  cases d with
  | finite m e =>
    simp only [Double.fitsInt, decide_eq_true_eq] at h
    exact ⟨⟨m, e, rfl⟩, h⟩
  | inf s => simp [Double.fitsInt] at h
  | nan => simp [Double.fitsInt] at h

theorem Double.finite_of_mul_finite {a b : Double} (ha : ∃ m e, a = Double.finite m e)
    (h : ∃ m e, Double.mul a b = Double.finite m e) : ∃ m e, b = Double.finite m e := by
  obtain ⟨m1, e1, rfl⟩ := ha
  obtain ⟨m, e, h⟩ := h
  cases b with
  | finite m2 e2 => exact ⟨m2, e2, rfl⟩
  | inf s =>
    have h2 : (if m1 = 0 then Double.nan else Double.inf (decide (m1 < 0) != s))
        = Double.finite m e := h
    by_cases hm : m1 = 0
    · rw [if_pos hm] at h2
      exact Double.noConfusion h2
    · rw [if_neg hm] at h2
      exact Double.noConfusion h2
  | nan => exact Double.noConfusion h

theorem Double.pos_of_lt {m e : Int} (h : Double.lt (Double.ofInt 0) (Double.finite m e) = true) :
    0 < (Double.finite m e).val := by
  rw [Double.ofInt_zero] at h
  simp only [Double.lt, zero_mul, decide_eq_true_eq] at h
  have hm : 0 < m := by
    by_contra hc
    push_neg at hc
    have : m * 2 ^ (e - min 0 e).toNat ≤ 0 :=
      mul_nonpos_of_nonpos_of_nonneg hc (by positivity)
    omega
  rw [Double.val_finite]
  have : (0 : ℚ) < (m : ℚ) := by exact_mod_cast hm
  exact mul_pos this (two_zpow_pos e)

theorem int_abs_lt_of_lt_31 (z : Int) (h : |z| < 2 ^ 31) : |z| < 2 ^ 53 := by
  have : (2 : Int) ^ 31 < 2 ^ 53 := by norm_num
  omega

theorem CompositeImages_of_ne_nil (env : Env) (g : Globals) (images : List QImage)
    (w h iconSize padding : Int) (hne : images ≠ []) (hlen : images.length ≤ 9) :
    CompositeImages env g images w h iconSize padding =
      if (newImage env (canvasWidth (getScaleFactor g) images.length iconSize padding)
          (Double.toInt (Double.mul (Double.ofInt h) (getScaleFactor g)))).isNull then
        newImage env (canvasWidth (getScaleFactor g) images.length iconSize padding)
          (Double.toInt (Double.mul (Double.ofInt h) (getScaleFactor g)))
      else
        { newImage env (canvasWidth (getScaleFactor g) images.length iconSize padding)
            (Double.toInt (Double.mul (Double.ofInt h) (getScaleFactor g))) with
          devicePixelRatio := getScaleFactor g
          draws := (images.foldl
            (drawImages
              (startY (getScaleFactor g)
                (Double.toInt (Double.mul (Double.ofInt h) (getScaleFactor g))) iconSize)
              iconSize padding)
            (startX (getScaleFactor g) images.length iconSize padding, [])).2 } := by
  have ht : images.take 9 = images := List.take_of_length_le hlen
  have he : images.isEmpty = false := by
    cases images with
    | nil => exact absurd rfl hne
    | cons a l => rfl
  simp only [CompositeImages, he, ht]
  rfl

theorem newImage_of_pos (env : Env) (width height : Int)
    (h : 0 < width ∧ 0 < height ∧ env.allocates width height = true) :
    newImage env width height = ⟨false, width, height, Double.ofInt 1, []⟩ := by
  unfold newImage
  rw [if_neg]
  rintro (h1 | h1 | h1)
  · omega
  · omega
  · rw [h.2.2] at h1
    exact Bool.noConfusion h1

theorem newImage_of_not_pos (env : Env) (width height : Int)
    (h : ¬ (0 < width ∧ 0 < height ∧ env.allocates width height = true)) :
    newImage env width height = Canvas.null := by
  unfold newImage
  rw [if_pos]
  by_contra hc
  push_neg at hc
  apply h
  refine ⟨by omega, by omega, ?_⟩
  cases hal : env.allocates width height with
  | true => rfl
  | false => exact absurd hal hc.2.2

theorem canvas_55_36 :
    canvasWidth (getScaleFactor ⟨Double.ofInt 1⟩) 2 24 7 = 55 ∧
    Double.toInt (Double.mul (Double.ofInt 36) (getScaleFactor ⟨Double.ofInt 1⟩)) = 36 := by
  decide

/-- C3 (counterexample): at the double nearest to 1.2 with three images,
`iconSize = 28` and `padding = 8` the canvas is 120 wide, while the exact
product `100 * s` truncates to 119; at the scale 1/64 with one image of
`iconSize = 1` the computed width is 0, so the result is the null image and
its height is 0, not `128 / 64 = 2`. -/
theorem CompositeImages_width_not_exact :
    (CompositeImages bareEnv ⟨d1_2⟩ [glyph 1, glyph 2, glyph 3] 220 36 28 8).width = 120 ∧
    truncQ (((28 * 3 + 8 * (3 - 1) : Int) : ℚ) * d1_2.val) = 119 ∧
    (CompositeImages bareEnv ⟨d1_64⟩ [glyph 1] 220 128 1 0).isNull = true ∧
    (CompositeImages bareEnv ⟨d1_64⟩ [glyph 1] 220 128 1 0).height = 0 ∧
    truncQ (((128 : Int) : ℚ) * d1_64.val) = 2 := by
  refine ⟨by decide, ?_, by decide, by decide, ?_⟩
  · have hv : d1_2.val = 5404319552844595 / 4503599627370496 := by
      simp only [d1_2, Double.val_finite]
      norm_num
    rw [hv]
    unfold truncQ
    norm_num [Int.floor_eq_iff]
  · have hv : d1_64.val = 1 / 64 := by
      simp only [d1_64, Double.val_finite]
      norm_num
    rw [hv]
    unfold truncQ
    norm_num [Int.floor_eq_iff]

/-- C3 (amended): for a scale factor `s > 0` and a non-empty list of `n ≤ 9`
images, with all conversions to `int` defined, `CompositeImages` computes
`(iconSize*n + padding*(n-1))*s` and `height*s` in double arithmetic - each
product is a double nearest to the exact product - and truncates them toward
zero to `w` and `h`.  When both are positive and the image can be allocated
the result is a `w x h` canvas, otherwise the null image; the `width`
argument has no influence.  With `s = 1`, two images, `iconSize = 24`,
`padding = 7` and `height = 36` the canvas is 55 x 36. -/
theorem CompositeImages_canvas_size (env : Env) (g : Globals) (images : List QImage)
    (w h iconSize padding : Int)
    (hs : Double.lt (Double.ofInt 0) (getScaleFactor g) = true)
    (hne : images ≠ []) (hlen : images.length ≤ 9)
    (hW : |iconSize * images.length + padding * ((images.length : Int) - 1)| < 2 ^ 31)
    (hH : |h| < 2 ^ 31)
    (hfw : (Double.mul
      (Double.ofInt (iconSize * images.length + padding * ((images.length : Int) - 1)))
      (getScaleFactor g)).fitsInt = true)
    (hfh : (Double.mul (Double.ofInt h) (getScaleFactor g)).fitsInt = true) :
    Rounds
      (((iconSize * images.length + padding * ((images.length : Int) - 1) : Int) : ℚ)
        * (getScaleFactor g).val)
      (Double.mul
        (Double.ofInt (iconSize * images.length + padding * ((images.length : Int) - 1)))
        (getScaleFactor g)) ∧
    Rounds ((h : ℚ) * (getScaleFactor g).val)
      (Double.mul (Double.ofInt h) (getScaleFactor g)) ∧
    canvasWidth (getScaleFactor g) images.length iconSize padding
      = truncQ (Double.mul
          (Double.ofInt (iconSize * images.length + padding * ((images.length : Int) - 1)))
          (getScaleFactor g)).val ∧
    Double.toInt (Double.mul (Double.ofInt h) (getScaleFactor g))
      = truncQ (Double.mul (Double.ofInt h) (getScaleFactor g)).val ∧
    ((0 < canvasWidth (getScaleFactor g) images.length iconSize padding ∧
        0 < Double.toInt (Double.mul (Double.ofInt h) (getScaleFactor g)) ∧
        env.allocates (canvasWidth (getScaleFactor g) images.length iconSize padding)
          (Double.toInt (Double.mul (Double.ofInt h) (getScaleFactor g))) = true) →
      (CompositeImages env g images w h iconSize padding).isNull = false ∧
      (CompositeImages env g images w h iconSize padding).width
        = canvasWidth (getScaleFactor g) images.length iconSize padding ∧
      (CompositeImages env g images w h iconSize padding).height
        = Double.toInt (Double.mul (Double.ofInt h) (getScaleFactor g))) ∧
    (¬ (0 < canvasWidth (getScaleFactor g) images.length iconSize padding ∧
        0 < Double.toInt (Double.mul (Double.ofInt h) (getScaleFactor g)) ∧
        env.allocates (canvasWidth (getScaleFactor g) images.length iconSize padding)
          (Double.toInt (Double.mul (Double.ofInt h) (getScaleFactor g))) = true) →
      CompositeImages env g images w h iconSize padding = Canvas.null) ∧
    (∀ w2 : Int, CompositeImages env g images w2 h iconSize padding
      = CompositeImages env g images w h iconSize padding) ∧
    (∀ a b : QImage, ∀ w2 : Int, env.allocates 55 36 = true →
      (CompositeImages env ⟨Double.ofInt 1⟩ [a, b] w2 36 24 7).isNull = false ∧
      (CompositeImages env ⟨Double.ofInt 1⟩ [a, b] w2 36 24 7).width = 55 ∧
      (CompositeImages env ⟨Double.ofInt 1⟩ [a, b] w2 36 24 7).height = 36) := by
  have _ := hs
  obtain ⟨hwfin, _, _⟩ := Double.fitsInt_spec hfw
  obtain ⟨hhfin, _, _⟩ := Double.fitsInt_spec hfh
  obtain ⟨hWf, hWv⟩ := Double.ofInt_spec _ (int_abs_lt_of_lt_31 _ hW)
  obtain ⟨hHf, hHv⟩ := Double.ofInt_spec _ (int_abs_lt_of_lt_31 _ hH)
  have hsf := Double.finite_of_mul_finite hWf hwfin
  have R1 := Double.mul_rounds hWf hsf hwfin
  rw [hWv] at R1
  have R2 := Double.mul_rounds hHf hsf hhfin
  rw [hHv] at R2
  refine ⟨R1, R2, Double.toInt_eq_truncQ hwfin, Double.toInt_eq_truncQ hhfin, ?_, ?_, ?_, ?_⟩
  · intro hpos
    rw [CompositeImages_of_ne_nil env g images w h iconSize padding hne hlen,
      newImage_of_pos env _ _ hpos]
    exact ⟨rfl, rfl, rfl⟩
  · intro hnot
    rw [CompositeImages_of_ne_nil env g images w h iconSize padding hne hlen,
      newImage_of_not_pos env _ _ hnot]
    rfl
  · intro w2
    rw [CompositeImages_of_ne_nil env g images w h iconSize padding hne hlen,
      CompositeImages_of_ne_nil env g images w2 h iconSize padding hne hlen]
  · intro a b w2 hal
    have hl : ((([a, b] : List QImage).length : Nat) : Int) = 2 := rfl
    rw [CompositeImages_of_ne_nil env ⟨Double.ofInt 1⟩ [a, b] w2 36 24 7 (by simp) (by simp),
      hl, canvas_55_36.1, canvas_55_36.2, newImage_of_pos env 55 36 ⟨by decide, by decide, hal⟩]
    exact ⟨rfl, rfl, rfl⟩

theorem CompositeImages_canvas_size_witness :
    (Double.lt (Double.ofInt 0) (getScaleFactor ⟨d1_2⟩) = true ∧
      [glyph 1, glyph 2, glyph 3] ≠ [] ∧ [glyph 1, glyph 2, glyph 3].length ≤ 9) ∧
    canvasWidth (getScaleFactor ⟨d1_2⟩) [glyph 1, glyph 2, glyph 3].length 28 8
      = truncQ (Double.mul
          (Double.ofInt (28 * [glyph 1, glyph 2, glyph 3].length
            + 8 * (([glyph 1, glyph 2, glyph 3].length : Int) - 1)))
          (getScaleFactor ⟨d1_2⟩)).val :=
  ⟨⟨by decide, by simp, by simp⟩,
   (CompositeImages_canvas_size bareEnv ⟨d1_2⟩ [glyph 1, glyph 2, glyph 3] 220 36 28 8
      (by decide) (by simp) (by simp) (by decide) (by decide) (by decide) (by decide)).2.2.1⟩

/-! ## Compositor: horizontal layout -/

theorem drawImages_foldl (y k p : Int) (imgs : List QImage) (m : Nat) (acc : List Draw) :
    (imgs.foldl (drawImages y k p) ((m : Int) * (k + p), acc)).2 =
      acc ++ (imgs.enumFrom m).map (fun q => Draw.image ((q.1 : Int) * (k + p)) y q.2) := by
  induction imgs generalizing m acc with
  | nil => simp
  | cons a l ih =>
    have e : (m : Int) * (k + p) + (k + p) = ((m + 1 : Nat) : Int) * (k + p) := by
      push_cast
      ring
    simp only [List.foldl_cons, drawImages, List.enumFrom_cons, List.map_cons]
    rw [e, ih (m + 1)]
    simp

/-- C10 (counterexample): at the double nearest to 1.16 with six images,
`iconSize = 25` and `padding = 5`, the operand
`spaceW - (n-1)*padding*s` computed by the code is strictly positive, so it
does not lie in `(-2, 0]`; the offset `x` is 0 all the same. -/
theorem startOperand_positive :
    Double.lt (Double.ofInt 0) (startOperand d1_16 6 25 5) = true ∧
    startX d1_16 6 25 5 = 0 := by
  decide

/-- C10 (amended): in `CompositeImages`, for a scale factor `s > 0`,
`iconSize ≥ 0`, `padding ≥ 0` and a non-empty list of `n ≤ 9` images, when
the width computation stays within `int`, the operand
`spaceW - (n-1)*padding*s` is a finite double in `(-2, 1]`, the starting
offset `x` is `0`, and on a canvas that is not null the `i`-th image
(0-based) is drawn at `x = i*(iconSize + padding)`: there is never a positive
left margin. -/
theorem CompositeImages_left_aligned (env : Env) (g : Globals) (images : List QImage)
    (w h iconSize padding : Int)
    (hs : Double.lt (Double.ofInt 0) (getScaleFactor g) = true)
    (hi : 0 ≤ iconSize) (hp : 0 ≤ padding)
    (hne : images ≠ []) (hlen : images.length ≤ 9)
    (hW : iconSize * images.length + padding * ((images.length : Int) - 1) < 2 ^ 31)
    (hfw : (Double.mul
      (Double.ofInt (iconSize * images.length + padding * ((images.length : Int) - 1)))
      (getScaleFactor g)).fitsInt = true) :
    ((∃ m e, startOperand (getScaleFactor g) images.length iconSize padding
        = Double.finite m e) ∧
      -2 < (startOperand (getScaleFactor g) images.length iconSize padding).val ∧
      (startOperand (getScaleFactor g) images.length iconSize padding).val ≤ 1) ∧
    startX (getScaleFactor g) images.length iconSize padding = 0 ∧
    ((CompositeImages env g images w h iconSize padding).isNull = false →
      (CompositeImages env g images w h iconSize padding).draws =
        images.enum.map (fun q =>
          Draw.image ((q.1 : Int) * (iconSize + padding))
            (startY (getScaleFactor g)
              (Double.toInt (Double.mul (Double.ofInt h) (getScaleFactor g))) iconSize)
            q.2)) := by
  have hn : (1 : Int) ≤ (images.length : Int) := by
    cases images with
    | nil => exact absurd rfl hne
    | cons a l => simp
  have ha : 0 ≤ iconSize * (images.length : Int) := mul_nonneg hi (by omega)
  have hpp : 0 ≤ ((images.length : Int) - 1) * padding := mul_nonneg (by omega) hp
  have hcomm : padding * ((images.length : Int) - 1) = ((images.length : Int) - 1) * padding :=
    mul_comm _ _
  have hWabs : |iconSize * (images.length : Int) + ((images.length : Int) - 1) * padding|
      < 2 ^ 53 := by
    rw [abs_of_nonneg (by omega)]
    have : (2 : Int) ^ 31 < 2 ^ 53 := by norm_num
    omega
  rw [hcomm] at hW hfw
  obtain ⟨hwfin, _, hK⟩ := Double.fitsInt_spec hfw
  obtain ⟨hWf, _⟩ := Double.ofInt_spec _ hWabs
  obtain ⟨ms, es, hsfin⟩ := Double.finite_of_mul_finite hWf hwfin
  have hσ : 0 < (getScaleFactor g).val := by
    rw [hsfin] at hs ⊢
    exact Double.pos_of_lt hs
  have core := layout_core (getScaleFactor g) (iconSize * (images.length : Int))
    (((images.length : Int) - 1) * padding) ⟨ms, es, hsfin⟩ hσ ha hpp hW hwfin hK
  have hop : startOperand (getScaleFactor g) images.length iconSize padding
      = Double.sub
        (Double.ofInt (Double.sub
          (Double.ofInt (Double.mul (Double.ofInt (iconSize * (images.length : Int)
            + ((images.length : Int) - 1) * padding)) (getScaleFactor g)).toInt)
          (Double.mul (Double.ofInt (iconSize * (images.length : Int)))
            (getScaleFactor g))).toInt)
        (Double.mul (Double.ofInt (((images.length : Int) - 1) * padding))
          (getScaleFactor g)) := by
    simp only [startOperand, spaceW, canvasWidth, hcomm]
  have hx : startX (getScaleFactor g) images.length iconSize padding = 0 := by
    unfold startX
    rw [hop]
    exact core.2.2.2
  refine ⟨?_, hx, ?_⟩
  · rw [hop]
    exact ⟨core.1, core.2.1, core.2.2.1⟩
  · intro hnn
    have hni : (newImage env (canvasWidth (getScaleFactor g) images.length iconSize padding)
        (Double.toInt (Double.mul (Double.ofInt h) (getScaleFactor g)))).isNull = false := by
      cases hc : (newImage env (canvasWidth (getScaleFactor g) images.length iconSize padding)
        (Double.toInt (Double.mul (Double.ofInt h) (getScaleFactor g)))).isNull with
      | false => rfl
      | true =>
        rw [CompositeImages_of_ne_nil env g images w h iconSize padding hne hlen,
          if_pos hc, hc] at hnn
        exact Bool.noConfusion hnn
    rw [CompositeImages_of_ne_nil env g images w h iconSize padding hne hlen,
      if_neg (by rw [hni]; exact Bool.false_ne_true)]
    simp only [hx]
    have h0 := drawImages_foldl
      (startY (getScaleFactor g)
        (Double.toInt (Double.mul (Double.ofInt h) (getScaleFactor g))) iconSize)
      iconSize padding images 0 []
    simp only [Nat.cast_zero, zero_mul, List.nil_append] at h0
    rw [h0]
    rfl

theorem CompositeImages_left_aligned_witness :
    (Double.lt (Double.ofInt 0) (getScaleFactor ⟨d1_16⟩) = true ∧ (0 : Int) ≤ 25 ∧
      (0 : Int) ≤ 5 ∧ [glyph 1, glyph 2, glyph 3] ≠ [] ∧
      [glyph 1, glyph 2, glyph 3].length ≤ 9) ∧
    startX (getScaleFactor ⟨d1_16⟩) [glyph 1, glyph 2, glyph 3].length 25 5 = 0 :=
  ⟨⟨by decide, by decide, by decide, by simp, by simp⟩,
   (CompositeImages_left_aligned bareEnv ⟨d1_16⟩ [glyph 1, glyph 2, glyph 3] 220 41 25 5
      (by decide) (by decide) (by decide) (by simp) (by simp) (by decide) (by decide)).2.1⟩

/-! ## Version sweep -/

/-- C6 (evaluation at the failing input): with `cursor-v1` and `cursor-v2`
under `X1` and current cursor version 2, the sweep globs for entries named
`-v*` inside a directory `X1/cursor`, which matches neither version
directory, so nothing is removed and both remain; `prepareOutputPath` creates `.../X1/cursor-v2`, and the same
`removeUnusedDirs` run on the pattern `.../X1/cursor-v*` would remove
`cursor-v1` only. -/
theorem removeOldVersionDirs_misses_version_dirs :
    removeOldVersionDirs sweepEnv "X1" "cursor" 2
      = [Effect.glob "/c/deepin/dde-api/theme_thumb/X1/cursor/-v*"] ∧
    remaining sweepEnv.entries (removeOldVersionDirs sweepEnv "X1" "cursor" 2)
      = [ "/c/deepin/dde-api/theme_thumb/X1/cursor-v1",
          "/c/deepin/dde-api/theme_thumb/X1/cursor-v2" ] ∧
    prepareOutputPath sweepEnv ⟨Double.ofInt 1⟩ "cursor" "t" 2
      = ("/c/deepin/dde-api/theme_thumb/X1/cursor-v2/t.png",
         [Effect.mkpath "/c/deepin/dde-api/theme_thumb/X1/cursor-v2"]) ∧
    removeUnusedDirs sweepEnv "/c/deepin/dde-api/theme_thumb/X1/cursor-v*" (getTypeDir "cursor" 2)
      = [ Effect.glob "/c/deepin/dde-api/theme_thumb/X1/cursor-v*",
          Effect.remove "/c/deepin/dde-api/theme_thumb/X1/cursor-v1" ] := by
  refine ⟨?_, ?_, ?_, ?_⟩
  · decide
  · decide
  · decide
  · decide

/-! ## Cursor generation and its result -/

theorem checkScaleFactor_one : checkScaleFactor ⟨Double.ofInt 1⟩ = true := by
  decide

theorem genCursor_fst (env : Env) (g : Globals) (descFile out : String) (w h : Int) (s : Double) :
    (genCursor env g descFile w h s out).1 = true := by
  unfold genCursor
  dsimp only
  split <;> rfl

/-- C2 (evaluation at the failing input): with scale factor 1, an empty cache
and a theme in which no cursor candidate decodes, the selected list is empty,
the composite is the null image and saving it fails, yet `genCursor` reports
success and `getCursor` returns the cache path instead of the empty string;
`genCursor` reports success whatever `save` returns. -/
theorem getCursor_returns_path_after_failed_save :
    (getCursors bareEnv "/t/cursors" 24).1 = [] ∧
    CompositeImages bareEnv ⟨Double.ofInt 1⟩ (getCursors bareEnv "/t/cursors" 24).1 220 36 24 7
      = Canvas.null ∧
    bareEnv.save Canvas.null "/c/deepin/dde-api/theme_thumb/X1/cursor-v1/t.png" = false ∧
    (shouldGenerateNewCursor bareEnv "/t"
      "/c/deepin/dde-api/theme_thumb/X1/cursor-v1/t.png").1 = true ∧
    (getCursor bareEnv ⟨Double.ofInt 1⟩ "t" "/t").1
      = "/c/deepin/dde-api/theme_thumb/X1/cursor-v1/t.png" ∧
    (∀ (env : Env) (g : Globals) (descFile out : String) (w h : Int) (s : Double),
      (genCursor env g descFile w h s out).1 = true) := by
  have hsel : (getCursors bareEnv "/t/cursors" 24).1 = [] := by decide
  refine ⟨hsel, ?_, ?_, ?_, ?_, ?_⟩
  · rw [hsel]
    rfl
  · decide
  · decide
  · have hout : (prepareOutputPath bareEnv ⟨Double.ofInt 1⟩ "cursor" "t" bareEnv.cursorVersion).1
        = "/c/deepin/dde-api/theme_thumb/X1/cursor-v1/t.png" := by decide
    have hfresh : (shouldGenerateNewCursor bareEnv "/t"
        "/c/deepin/dde-api/theme_thumb/X1/cursor-v1/t.png").1 = true := by
      decide
    simp [getCursor, checkScaleFactor_one, hout, hfresh, genCursor_fst]
  · intro env g descFile out w h s
    exact genCursor_fst env g descFile out w h s

/-! ## Icon thumbnail -/

theorem paintIcons_foldl (x0 y k p : Int) (icons : List QIcon) (m : Nat) (acc : List Draw) :
    (icons.foldl (paintIcons y k p) (x0 + (m : Int) * (k + p), acc)).2 =
      acc ++ (icons.enumFrom m).map
        (fun q => Draw.icon (x0 + (q.1 : Int) * (k + p)) y k k q.2) := by
  induction icons generalizing m acc with
  | nil => simp
  | cons a l ih =>
    have e : x0 + (m : Int) * (k + p) + (k + p) = x0 + ((m + 1 : Nat) : Int) * (k + p) := by
      push_cast
      ring
    simp only [List.foldl_cons, paintIcons, List.enumFrom_cons, List.map_cons]
    rw [e, ih (m + 1)]
    simp

/-- C9 (counterexample): at scale factor 1 with a theme in which only
`user-trash` resolves, one icon is selected and the canvas `genIcon` builds is
220 wide, not `(36*1 + 10*0)*1 = 36`. -/
theorem genIcon_width_not_content_driven :
    (getIcons trashEnv "t" 36).1 = [QIcon.mk "user-trash"] ∧
    (genIconImage trashEnv (getIcons trashEnv "t" 36).1 width height (Double.ofInt 1)).isNull
      = false ∧
    (genIconImage trashEnv (getIcons trashEnv "t" 36).1 width height (Double.ofInt 1)).width
      = 220 ∧
    Double.toInt (Double.mul
      (Double.ofInt (baseIconSize * ((getIcons trashEnv "t" 36).1.length : Int)
        + baseIconPadding * (((getIcons trashEnv "t" 36).1.length : Int) - 1)))
      (Double.ofInt 1)) = 36 := by
  decide

/-- C9 (amended): for every scale factor `s > 0` with the conversions of
`220*s` and `36*s` to `int` defined, and every theme, `genIcon` saves the
image `genIconImage` builds from the selected icons.  `220*s` and `36*s` are
computed in double arithmetic (a double nearest to the exact product) and
truncated toward zero to `w` and `h`; when both are positive and the image
can be allocated the canvas is `w x h`, whatever the number `n` of selected
icons, and the `i`-th icon is painted at
`x = (w - iconSize*n - (n-1)*padding)/2 + i*(iconSize + padding)` with
`iconSize` and `padding` the truncated doubles `36*s` and `10*s`; otherwise
the canvas is the null image. -/
theorem genIcon_canvas_fixed_width (env : Env) (theme out : String) (s : Double)
    (hs : Double.lt (Double.ofInt 0) s = true)
    (hfw : (Double.mul (Double.ofInt width) s).fitsInt = true)
    (hfh : (Double.mul (Double.ofInt height) s).fitsInt = true) :
    genIcon env theme width height s out =
      (env.save
        (genIconImage env
          (getIcons env theme (Double.toInt (Double.mul (Double.ofInt baseIconSize) s))).1
          width height s) out,
        (getIcons env theme (Double.toInt (Double.mul (Double.ofInt baseIconSize) s))).2
          ++ [Effect.save out]) ∧
    Rounds ((220 : ℚ) * s.val) (Double.mul (Double.ofInt width) s) ∧
    Rounds ((36 : ℚ) * s.val) (Double.mul (Double.ofInt height) s) ∧
    Double.toInt (Double.mul (Double.ofInt width) s)
      = truncQ (Double.mul (Double.ofInt width) s).val ∧
    Double.toInt (Double.mul (Double.ofInt height) s)
      = truncQ (Double.mul (Double.ofInt height) s).val ∧
    (∀ icons : List QIcon,
      ((0 < Double.toInt (Double.mul (Double.ofInt width) s) ∧
          0 < Double.toInt (Double.mul (Double.ofInt height) s) ∧
          env.allocates (Double.toInt (Double.mul (Double.ofInt width) s))
            (Double.toInt (Double.mul (Double.ofInt height) s)) = true) →
        (genIconImage env icons width height s).isNull = false ∧
        (genIconImage env icons width height s).width
          = Double.toInt (Double.mul (Double.ofInt width) s) ∧
        (genIconImage env icons width height s).height
          = Double.toInt (Double.mul (Double.ofInt height) s) ∧
        (genIconImage env icons width height s).draws =
          icons.enum.map (fun q =>
            Draw.icon
              (Int.tdiv
                  (Double.toInt (Double.mul (Double.ofInt width) s)
                    - Double.toInt (Double.mul (Double.ofInt baseIconSize) s)
                      * (icons.length : Int)
                    - ((icons.length : Int) - 1)
                      * Double.toInt (Double.mul (Double.ofInt baseIconPadding) s)) 2
                + (q.1 : Int)
                  * (Double.toInt (Double.mul (Double.ofInt baseIconSize) s)
                    + Double.toInt (Double.mul (Double.ofInt baseIconPadding) s)))
              (Int.tdiv
                (Double.toInt (Double.mul (Double.ofInt height) s)
                  - Double.toInt (Double.mul (Double.ofInt baseIconSize) s)) 2)
              (Double.toInt (Double.mul (Double.ofInt baseIconSize) s))
              (Double.toInt (Double.mul (Double.ofInt baseIconSize) s)) q.2)) ∧
      (¬ (0 < Double.toInt (Double.mul (Double.ofInt width) s) ∧
          0 < Double.toInt (Double.mul (Double.ofInt height) s) ∧
          env.allocates (Double.toInt (Double.mul (Double.ofInt width) s))
            (Double.toInt (Double.mul (Double.ofInt height) s)) = true) →
        genIconImage env icons width height s = Canvas.null)) := by
  have _ := hs
  obtain ⟨hwfin, _, _⟩ := Double.fitsInt_spec hfw
  obtain ⟨hhfin, _, _⟩ := Double.fitsInt_spec hfh
  obtain ⟨hWf, hWv⟩ := Double.ofInt_spec width (by decide)
  obtain ⟨hHf, hHv⟩ := Double.ofInt_spec height (by decide)
  have hsf := Double.finite_of_mul_finite hWf hwfin
  have R1 := Double.mul_rounds hWf hsf hwfin
  have R2 := Double.mul_rounds hHf hsf hhfin
  have e1 : (Double.ofInt width).val = 220 := by
    rw [hWv]
    norm_num [width]
  have e2 : (Double.ofInt height).val = 36 := by
    rw [hHv]
    norm_num [height]
  rw [e1] at R1
  rw [e2] at R2
  refine ⟨rfl, R1, R2, Double.toInt_eq_truncQ hwfin, Double.toInt_eq_truncQ hhfin, ?_⟩
  intro icons
  constructor
  · intro hpos
    have himg := newImage_of_pos env _ _ hpos
    have h0 := paintIcons_foldl
      (Int.tdiv
        (Double.toInt (Double.mul (Double.ofInt width) s)
          - Double.toInt (Double.mul (Double.ofInt baseIconSize) s) * (icons.length : Int)
          - ((icons.length : Int) - 1)
            * Double.toInt (Double.mul (Double.ofInt baseIconPadding) s)) 2)
      (Int.tdiv
        (Double.toInt (Double.mul (Double.ofInt height) s)
          - Double.toInt (Double.mul (Double.ofInt baseIconSize) s)) 2)
      (Double.toInt (Double.mul (Double.ofInt baseIconSize) s))
      (Double.toInt (Double.mul (Double.ofInt baseIconPadding) s)) icons 0 []
    simp only [Nat.cast_zero, zero_mul, add_zero, List.nil_append] at h0
    simp only [genIconImage, himg]
    refine ⟨rfl, rfl, rfl, ?_⟩
    simp only [Bool.false_eq_true, if_false]
    rw [h0]
    rfl
  · intro hnot
    have himg := newImage_of_not_pos env _ _ hnot
    simp only [genIconImage, himg]
    rfl

theorem genIcon_canvas_fixed_width_witness :
    (Double.lt (Double.ofInt 0) d1_2 = true ∧
      (Double.mul (Double.ofInt width) d1_2).fitsInt = true ∧
      (Double.mul (Double.ofInt height) d1_2).fitsInt = true) ∧
    Double.toInt (Double.mul (Double.ofInt width) d1_2)
      = truncQ (Double.mul (Double.ofInt width) d1_2).val ∧
    Double.toInt (Double.mul (Double.ofInt width) d1_2) = 264 :=
  ⟨⟨by decide, by decide, by decide⟩,
   (genIcon_canvas_fixed_width bareEnv "t" "/c/t.png" d1_2 (by decide) (by decide)
      (by decide)).2.2.2.1,
   by decide⟩

/-! ## Candidate selection -/

theorem scanSelected_iff (image : QImage) (images : List QImage) :
    scanSelected image images = true ↔ ∀ t ∈ images, t.cacheKey ≠ image.cacheKey := by
  induction images with
  | nil => simp [scanSelected]
  | cons t rest ih =>
    by_cases h : t.cacheKey = image.cacheKey
    · simp [scanSelected, h]
    · simp [scanSelected, h, ih]

theorem cursorGroupLoop_cons_skip (env : Env) (dir : String) (size : Int) (name : String)
    (rest : List String) (images : List QImage) (log : List Effect)
    (h : contributes env dir size images name = none) :
    cursorGroupLoop env dir size (name :: rest) (images, log) =
      cursorGroupLoop env dir size rest
        (images, log ++ [Effect.loadCursor (dir ++ "/" ++ name) size]) := by
  unfold contributes at h
  cases hl : loadXCursor env (dir ++ "/" ++ name) size with
  | none => simp [cursorGroupLoop, hl]
  | some image =>
    rw [hl] at h
    have hs : scanSelected image images = false := by
      by_contra hc
      simp [Option.filter, hc] at h
    simp [cursorGroupLoop, hl, hs]

theorem cursorGroupLoop_cons_take (env : Env) (dir : String) (size : Int) (name : String)
    (rest : List String) (images : List QImage) (log : List Effect) (image : QImage)
    (h : contributes env dir size images name = some image) :
    cursorGroupLoop env dir size (name :: rest) (images, log) =
      (images ++ [image], log ++ [Effect.loadCursor (dir ++ "/" ++ name) size]) := by
  unfold contributes at h
  cases hl : loadXCursor env (dir ++ "/" ++ name) size with
  | none => simp [hl] at h
  | some image2 =>
    rw [hl] at h
    by_cases hs : scanSelected image2 images = true
    · simp [Option.filter, hs] at h
      subst h
      simp [cursorGroupLoop, hl, hs]
    · simp [Option.filter, hs] at h

theorem cursorGroupLoop_char (env : Env) (dir : String) (size : Int) (group : List String)
    (images : List QImage) (log : List Effect) :
    cursorGroupLoop env dir size group (images, log) =
      ((match group.findSome? (contributes env dir size images) with
        | some image => images ++ [image]
        | none => images),
       log ++ (group.takeWhile (fun name => (contributes env dir size images name).isNone)
          ++ (group.dropWhile
            (fun name => (contributes env dir size images name).isNone)).take 1).map
          (fun name => Effect.loadCursor (dir ++ "/" ++ name) size)) := by
  induction group generalizing log with
  | nil => simp [cursorGroupLoop]
  | cons name rest ih =>
    cases hc : contributes env dir size images name with
    | none =>
      rw [cursorGroupLoop_cons_skip env dir size name rest images log hc, ih]
      simp [List.findSome?, hc, List.takeWhile, List.dropWhile]
    | some image =>
      rw [cursorGroupLoop_cons_take env dir size name rest images log image hc]
      simp [List.findSome?, hc, List.takeWhile, List.dropWhile]

/-- C5 (evaluation at the failing input): in a theme where `hand2` is a copy
of `left_ptr`, both files decode to the same pixels but to two `QImage`
objects with different cache keys; the comparison of cache keys does not
match, `hand2` is appended next to `left_ptr`, and `hand1` is never loaded.
The result holds two pixel-identical images. -/
theorem getCursors_keeps_pixel_identical :
    loadXCursor symlinkEnv "/t/cursors/left_ptr" 24 = some ⟨1, 1, 1, [⟨0, 0, 0, 255⟩]⟩ ∧
    loadXCursor symlinkEnv "/t/cursors/hand2" 24 = some ⟨2, 1, 1, [⟨0, 0, 0, 255⟩]⟩ ∧
    scanSelected ⟨2, 1, 1, [⟨0, 0, 0, 255⟩]⟩ [⟨1, 1, 1, [⟨0, 0, 0, 255⟩]⟩] = true ∧
    getCursors symlinkEnv "/t/cursors" 24
      = ([⟨1, 1, 1, [⟨0, 0, 0, 255⟩]⟩, ⟨2, 1, 1, [⟨0, 0, 0, 255⟩]⟩],
         [ Effect.loadCursor "/t/cursors/left_ptr" 24,
           Effect.loadCursor "/t/cursors/left_ptr_watch" 24,
           Effect.loadCursor "/t/cursors/x-cursor" 24,
           Effect.loadCursor "/t/cursors/X_cursor" 24,
           Effect.loadCursor "/t/cursors/hand2" 24,
           Effect.loadCursor "/t/cursors/grab" 24,
           Effect.loadCursor "/t/cursors/grabbing" 24,
           Effect.loadCursor "/t/cursors/closedhand" 24,
           Effect.loadCursor "/t/cursors/fleur" 24,
           Effect.loadCursor "/t/cursors/move" 24,
           Effect.loadCursor "/t/cursors/sb_v_double_arrow" 24 ]) := by
  refine ⟨?_, ?_, ?_, ?_⟩
  · decide
  · decide
  · decide
  · decide

theorem contributes_some (env : Env) (dir : String) (size : Int) (images : List QImage)
    (name : String) (image : QImage) (h : contributes env dir size images name = some image) :
    loadXCursor env (dir ++ "/" ++ name) size = some image ∧
      scanSelected image images = true := by
  unfold contributes at h
  cases hl : loadXCursor env (dir ++ "/" ++ name) size with
  | none => simp [hl] at h
  | some image2 =>
    rw [hl] at h
    by_cases hs : scanSelected image2 images = true
    · simp [Option.filter, hs] at h
      subst h
      exact ⟨rfl, hs⟩
    · simp [Option.filter, hs] at h

theorem groups_foldl_picks (env : Env) (dir : String) (size : Int)
    (groups : List (List String)) (images : List QImage) (log : List Effect) :
    ∃ picks : List (Option QImage),
      List.Forall₂
        (fun group pick =>
          (∀ image, pick = some image →
            ∃ name ∈ group, loadXCursor env (dir ++ "/" ++ name) size = some image) ∧
          ((∀ name ∈ group, loadXCursor env (dir ++ "/" ++ name) size = none) → pick = none))
        groups picks ∧
      (groups.foldl (fun st cursors => cursorGroupLoop env dir size cursors st) (images, log)).1
        = images ++ picks.reduceOption := by
  induction groups generalizing images log with
  | nil => exact ⟨[], List.Forall₂.nil, by simp [List.reduceOption]⟩
  | cons group rest ih =>
    rw [List.foldl_cons, cursorGroupLoop_char]
    cases hp : group.findSome? (contributes env dir size images) with
    | none =>
      obtain ⟨picks, hrel, hres⟩ := ih images
        (log ++ (group.takeWhile (fun name => (contributes env dir size images name).isNone)
          ++ (group.dropWhile
            (fun name => (contributes env dir size images name).isNone)).take 1).map
          (fun name => Effect.loadCursor (dir ++ "/" ++ name) size))
      refine ⟨none :: picks, List.Forall₂.cons ⟨?_, ?_⟩ hrel, ?_⟩
      · intro image h
        exact absurd h (by simp)
      · intro _
        rfl
      · rw [List.reduceOption_cons_of_none]
        exact hres
    | some image =>
      obtain ⟨picks, hrel, hres⟩ := ih (images ++ [image])
        (log ++ (group.takeWhile (fun name => (contributes env dir size images name).isNone)
          ++ (group.dropWhile
            (fun name => (contributes env dir size images name).isNone)).take 1).map
          (fun name => Effect.loadCursor (dir ++ "/" ++ name) size))
      obtain ⟨name, hmem, hc⟩ := List.exists_of_findSome?_eq_some hp
      have hload := (contributes_some env dir size images name image hc).1
      refine ⟨some image :: picks, List.Forall₂.cons ⟨?_, ?_⟩ hrel, ?_⟩
      · intro image2 h
        have e : image = image2 := by simpa using h
        subst e
        exact ⟨name, hmem, hload⟩
      · intro hall
        rw [hall name hmem] at hload
        exact absurd hload (by simp)
      · rw [List.reduceOption_cons_of_some]
        simpa using hres

theorem groups_foldl_nodup (env : Env) (dir : String) (size : Int)
    (groups : List (List String)) (images : List QImage) (log : List Effect)
    (hnd : (images.map QImage.cacheKey).Nodup) :
    ((groups.foldl (fun st cursors => cursorGroupLoop env dir size cursors st)
      (images, log)).1.map QImage.cacheKey).Nodup := by
  induction groups generalizing images log with
  | nil => simpa using hnd
  | cons group rest ih =>
    rw [List.foldl_cons, cursorGroupLoop_char]
    cases hp : group.findSome? (contributes env dir size images) with
    | none => exact ih images _ hnd
    | some image =>
      apply ih
      obtain ⟨name, _, hc⟩ := List.exists_of_findSome?_eq_some hp
      have hscan := (contributes_some env dir size images name image hc).2
      have hk := (scanSelected_iff image images).mp hscan
      rw [List.map_append, List.nodup_append]
      refine ⟨hnd, by simp, ?_⟩
      intro k hk1 hk2
      simp only [List.map_cons, List.map_nil, List.mem_singleton] at hk2
      obtain ⟨t, ht, htk⟩ := List.mem_map.mp hk1
      exact hk t ht (htk.trans hk2)

/-- C4: whatever the loader does, the images returned by `getCursors` are
obtained by taking at most one image from each group of `presentCursors`, in
the order of the groups: an image taken from a group is the decoded image of
one of its candidates, a group none of whose candidates decodes gives none,
the result has at most as many images as there are groups, and no two images
of the result carry the same cache key. -/
theorem getCursors_one_per_group (env : Env) (dir : String) (size : Int) :
    (∃ picks : List (Option QImage),
      List.Forall₂
        (fun group pick =>
          (∀ image, pick = some image →
            ∃ name ∈ group, loadXCursor env (dir ++ "/" ++ name) size = some image) ∧
          ((∀ name ∈ group, loadXCursor env (dir ++ "/" ++ name) size = none) → pick = none))
        presentCursors picks ∧
      (getCursors env dir size).1 = picks.reduceOption) ∧
    (getCursors env dir size).1.length ≤ presentCursors.length ∧
    ((getCursors env dir size).1.map QImage.cacheKey).Nodup := by
  obtain ⟨picks, hrel, hres⟩ := groups_foldl_picks env dir size presentCursors [] []
  have hres2 : (getCursors env dir size).1 = picks.reduceOption := by
    simpa [getCursors] using hres
  refine ⟨⟨picks, hrel, hres2⟩, ?_, ?_⟩
  · rw [hres2, hrel.length_eq]
    exact List.reduceOption_length_le picks
  · exact groups_foldl_nodup env dir size presentCursors [] [] (by simp)

/-! ## Cursor bitmap conversion -/

theorem packed_or (a r g b : Nat) (hr : r < 256) (hg : g < 256) (hb : b < 256) :
    (a <<< 24) ||| (r <<< 16) ||| (g <<< 8) ||| b
      = a * 2 ^ 24 + r * 2 ^ 16 + g * 2 ^ 8 + b := by
  simp only [Nat.shiftLeft_eq]
  have h1 : a * 2 ^ 24 ||| r * 2 ^ 16 = a * 2 ^ 24 + r * 2 ^ 16 := by
    have h := Nat.mul_add_lt_is_or (i := 24) (b := r * 2 ^ 16) (by omega) a
    rw [Nat.mul_comm (2 ^ 24) a] at h
    exact h.symm
  have h2 : (a * 2 ^ 24 + r * 2 ^ 16) ||| g * 2 ^ 8 = a * 2 ^ 24 + r * 2 ^ 16 + g * 2 ^ 8 := by
    have h := Nat.mul_add_lt_is_or (i := 16) (b := g * 2 ^ 8) (by omega) (a * 2 ^ 8 + r)
    have e : 2 ^ 16 * (a * 2 ^ 8 + r) = a * 2 ^ 24 + r * 2 ^ 16 := by ring
    rw [e] at h
    exact h.symm
  have h3 : (a * 2 ^ 24 + r * 2 ^ 16 + g * 2 ^ 8) ||| b
      = a * 2 ^ 24 + r * 2 ^ 16 + g * 2 ^ 8 + b := by
    have h := Nat.mul_add_lt_is_or (i := 8) (b := b) (by omega) (a * 2 ^ 16 + r * 2 ^ 8 + g)
    have e : 2 ^ 8 * (a * 2 ^ 16 + r * 2 ^ 8 + g) = a * 2 ^ 24 + r * 2 ^ 16 + g * 2 ^ 8 := by
      ring
    rw [e] at h
    exact h.symm
  rw [h1, h2, h3]

theorem unpackPixel_lossless (p : Nat) (hp : p < 2 ^ 32) :
    (unpackPixel p).alpha ≤ 255 ∧ (unpackPixel p).red ≤ 255 ∧
    (unpackPixel p).green ≤ 255 ∧ (unpackPixel p).blue ≤ 255 ∧
    ((unpackPixel p).alpha <<< 24) ||| ((unpackPixel p).red <<< 16)
      ||| ((unpackPixel p).green <<< 8) ||| (unpackPixel p).blue = p := by
  have e : (0xff : Nat) = 2 ^ 8 - 1 := by norm_num
  simp only [unpackPixel, e, Nat.and_pow_two_sub_one_eq_mod, Nat.shiftRight_eq_div_pow]
  refine ⟨by omega, by omega, by omega, by omega, ?_⟩
  rw [packed_or _ _ _ _ (by omega) (by omega) (by omega)]
  omega

theorem convertPixel_eq (tempPixel : List Nat) (y : Nat) (st : Nat × QImage) (x : Nat) :
    convertPixel tempPixel y st x =
      (st.1 + 1, st.2.setPixelColor x y (unpackPixel (tempPixel.getD st.1 0))) := rfl

theorem getD_set_self (l : List QColor) (i : Nat) (c d : QColor) (h : i < l.length) :
    (l.set i c).getD i d = c := by
  simp [List.getD_eq_getElem?_getD, List.getElem?_set, h]

theorem getD_set_other (l : List QColor) (i j : Nat) (c d : QColor) (h : i ≠ j) :
    (l.set i c).getD j d = l.getD j d := by
  simp [List.getD_eq_getElem?_getD, List.getElem?_set, h]

theorem setPixelColor_inside (q : QImage) (x y : Nat) (c : QColor)
    (hx : x < q.width) (hy : y < q.height) :
    q.setPixelColor x y c = { q with pixels := q.pixels.set (y * q.width + x) c } := by
  simp [QImage.setPixelColor, hx, hy]

/-- State of the conversion after `k` pixels: the index is `k`, the image
keeps its dimensions and the first `k` cells hold the unpacked pixels. -/
theorem convertPixel_inv (px : List Nat) (w h x y : Nat) (st : Nat × QImage)
    (hx : x < w) (hy : y < h)
    (hi : st.1 = y * w + x) (hw : st.2.width = w) (hh : st.2.height = h)
    (hl : st.2.pixels.length = w * h)
    (hpre : ∀ j < st.1, st.2.pixels.getD j default = unpackPixel (px.getD j 0)) :
    (convertPixel px y st x).1 = y * w + (x + 1) ∧
    (convertPixel px y st x).2.width = w ∧
    (convertPixel px y st x).2.height = h ∧
    (convertPixel px y st x).2.pixels.length = w * h ∧
    (∀ j < (convertPixel px y st x).1,
      (convertPixel px y st x).2.pixels.getD j default = unpackPixel (px.getD j 0)) := by
  have hin : x < st.2.width ∧ y < st.2.height := by
    rw [hw, hh]
    exact ⟨hx, hy⟩
  have hlt : y * w + x < w * h := by
    have h1 : y * w + x < (y + 1) * w := by
      rw [Nat.add_mul, Nat.one_mul]
      omega
    have h2 : (y + 1) * w ≤ h * w := Nat.mul_le_mul_right w hy
    rw [Nat.mul_comm w h]
    omega
  rw [convertPixel_eq, setPixelColor_inside _ _ _ _ hin.1 hin.2]
  refine ⟨?_, hw, hh, ?_, ?_⟩
  · show st.1 + 1 = y * w + (x + 1)
    omega
  · show (st.2.pixels.set (y * st.2.width + x) _).length = w * h
    rw [List.length_set]
    exact hl
  · intro j hj
    show (st.2.pixels.set (y * st.2.width + x) _).getD j default = _
    have hj2 : j < st.1 + 1 := hj
    rw [hw]
    by_cases hji : j = st.1
    · rw [hji, hi]
      exact getD_set_self _ _ _ _ (by rw [hl]; exact hlt)
    · have hne : y * w + x ≠ j := by omega
      rw [getD_set_other _ _ _ _ _ hne]
      exact hpre j (by omega)

theorem convertRow_inv (image : XcursorImage) (y m : Nat) (st : Nat × QImage)
    (hm : m ≤ image.width) (hy : y < image.height)
    (hi : st.1 = y * image.width) (hw : st.2.width = image.width)
    (hh : st.2.height = image.height)
    (hl : st.2.pixels.length = image.width * image.height)
    (hpre : ∀ j < st.1, st.2.pixels.getD j default = unpackPixel (image.pixels.getD j 0)) :
    ((List.range m).foldl (convertPixel image.pixels y) st).1 = y * image.width + m ∧
    ((List.range m).foldl (convertPixel image.pixels y) st).2.width = image.width ∧
    ((List.range m).foldl (convertPixel image.pixels y) st).2.height = image.height ∧
    ((List.range m).foldl (convertPixel image.pixels y) st).2.pixels.length
      = image.width * image.height ∧
    (∀ j < ((List.range m).foldl (convertPixel image.pixels y) st).1,
      ((List.range m).foldl (convertPixel image.pixels y) st).2.pixels.getD j default
        = unpackPixel (image.pixels.getD j 0)) := by
  induction m with
  | zero => exact ⟨by simpa using hi, by simpa using hw, by simpa using hh, by simpa using hl,
      by simpa using hpre⟩
  | succ m ih =>
    obtain ⟨h1, h2, h3, h4, h5⟩ := ih (by omega)
    rw [List.range_succ, List.foldl_append]
    simp only [List.foldl_cons, List.foldl_nil]
    exact convertPixel_inv image.pixels image.width image.height m y _ (by omega) hy h1 h2 h3 h4 h5

theorem convertRows_inv (image : XcursorImage) (key n : Nat) (hn : n ≤ image.height) :
    ((List.range n).foldl (convertRow image)
      (0, ⟨key, image.width, image.height,
        List.replicate (image.width * image.height) default⟩)).1 = n * image.width ∧
    ((List.range n).foldl (convertRow image)
      (0, ⟨key, image.width, image.height,
        List.replicate (image.width * image.height) default⟩)).2.width = image.width ∧
    ((List.range n).foldl (convertRow image)
      (0, ⟨key, image.width, image.height,
        List.replicate (image.width * image.height) default⟩)).2.height = image.height ∧
    ((List.range n).foldl (convertRow image)
      (0, ⟨key, image.width, image.height,
        List.replicate (image.width * image.height) default⟩)).2.pixels.length
      = image.width * image.height ∧
    (∀ j < ((List.range n).foldl (convertRow image)
        (0, ⟨key, image.width, image.height,
          List.replicate (image.width * image.height) default⟩)).1,
      ((List.range n).foldl (convertRow image)
        (0, ⟨key, image.width, image.height,
          List.replicate (image.width * image.height) default⟩)).2.pixels.getD j default
        = unpackPixel (image.pixels.getD j 0)) := by
  induction n with
  | zero => simp
  | succ n ih =>
    obtain ⟨h1, h2, h3, h4, h5⟩ := ih (by omega)
    rw [List.range_succ, List.foldl_append]
    simp only [List.foldl_cons, List.foldl_nil]
    have hrow := convertRow_inv image n image.width _ le_rfl (by omega) h1 h2 h3 h4 h5
    have e : n * image.width + image.width = (n + 1) * image.width := by
      rw [Nat.add_mul, Nat.one_mul]
    rw [e] at hrow
    exact hrow

/-- C8: for a decoded bitmap of width `w` and height `h` with 32-bit pixels
`p[0..w*h-1]`, `fromXCurorImageToQImage` gives a `w x h` image whose pixel at
`(x, y)` has alpha, red, green and blue equal to bits 31..24, 23..16, 15..8
and 7..0 of `p[y*w + x]`; each channel is at most 255 and
`(alpha<<24)|(red<<16)|(green<<8)|blue` is the source pixel. -/
theorem fromXCurorImageToQImage_pixels (key : Nat) (image : XcursorImage)
    (hlen : image.pixels.length = image.width * image.height)
    (hpx : ∀ p ∈ image.pixels, p < 2 ^ 32) :
    (fromXCurorImageToQImage key image).width = image.width ∧
    (fromXCurorImageToQImage key image).height = image.height ∧
    (∀ x y : Nat, x < image.width → y < image.height →
      ((fromXCurorImageToQImage key image).pixelColor x y).alpha
        = image.pixels.getD (y * image.width + x) 0 >>> 24 ∧
      ((fromXCurorImageToQImage key image).pixelColor x y).red
        = (image.pixels.getD (y * image.width + x) 0 >>> 16) &&& 0xff ∧
      ((fromXCurorImageToQImage key image).pixelColor x y).green
        = (image.pixels.getD (y * image.width + x) 0 >>> 8) &&& 0xff ∧
      ((fromXCurorImageToQImage key image).pixelColor x y).blue
        = image.pixels.getD (y * image.width + x) 0 &&& 0xff ∧
      ((fromXCurorImageToQImage key image).pixelColor x y).alpha ≤ 255 ∧
      ((fromXCurorImageToQImage key image).pixelColor x y).red ≤ 255 ∧
      ((fromXCurorImageToQImage key image).pixelColor x y).green ≤ 255 ∧
      ((fromXCurorImageToQImage key image).pixelColor x y).blue ≤ 255 ∧
      (((fromXCurorImageToQImage key image).pixelColor x y).alpha <<< 24)
        ||| (((fromXCurorImageToQImage key image).pixelColor x y).red <<< 16)
        ||| (((fromXCurorImageToQImage key image).pixelColor x y).green <<< 8)
        ||| ((fromXCurorImageToQImage key image).pixelColor x y).blue
        = image.pixels.getD (y * image.width + x) 0) := by
  obtain ⟨h1, h2, h3, _, h5⟩ := convertRows_inv image key image.height le_rfl
  refine ⟨h2, h3, ?_⟩
  intro x y hx hy
  have hlt : y * image.width + x < image.height * image.width := by
    have ha : y * image.width + x < (y + 1) * image.width := by
      rw [Nat.add_mul, Nat.one_mul]
      omega
    have hb : (y + 1) * image.width ≤ image.height * image.width :=
      Nat.mul_le_mul_right image.width hy
    omega
  have hcol : (fromXCurorImageToQImage key image).pixelColor x y
      = unpackPixel (image.pixels.getD (y * image.width + x) 0) := by
    have hw : (fromXCurorImageToQImage key image).width = image.width := h2
    unfold QImage.pixelColor
    rw [hw]
    exact h5 (y * image.width + x) (by rw [h1]; exact hlt)
  have hmem : image.pixels.getD (y * image.width + x) 0 ∈ image.pixels := by
    have hi : y * image.width + x < image.pixels.length := by
      rw [hlen, Nat.mul_comm image.width image.height]
      exact hlt
    rw [List.getD_eq_getElem _ _ hi]
    exact List.getElem_mem hi
  have hl := unpackPixel_lossless _ (hpx _ hmem)
  rw [hcol]
  exact ⟨rfl, rfl, rfl, rfl, hl.1, hl.2.1, hl.2.2.1, hl.2.2.2.1, hl.2.2.2.2⟩

theorem fromXCurorImageToQImage_pixels_witness :
    (quad.pixels.length = quad.width * quad.height ∧ ∀ p ∈ quad.pixels, p < 2 ^ 32) ∧
    ((fromXCurorImageToQImage 7 quad).pixelColor 0 1).red
      = (quad.pixels.getD (1 * quad.width + 0) 0 >>> 16) &&& 0xff :=
  ⟨⟨by decide, by decide⟩,
   ((fromXCurorImageToQImage_pixels 7 quad (by decide) (by decide)).2.2 0 1
      (by decide) (by decide)).2.1⟩

end ThemeThumb
